import Mathlib

/-!
Verification of the EventBus dispatcher (event_bus.go) against its
specification.  The Go code is embedded shallowly:

* `reflect.Value` identity of a callback is a `Callback` record: two
  subscriptions of the same Go function value share the same `Callback`
  (same function pointer and type), distinct functions differ.
* `*eventHandler` pointers are indices into a `heap : List eventHandler`;
  mutating a field through a pointer is updating the heap at that index.
* `map[string][]*eventHandler` is an association list from topic to the
  list of heap indices currently registered (Go map keys are never deleted
  by this code, only written).
* Go slice semantics are modelled exactly where they are observable:
  `removeHandler` performs `append(s[:i], s[i+1:]...)`, an in-place left
  shift of the shared backing array that keeps the array length and leaves
  the tail entries stale, while the stored slice header shrinks by one.
  `Publish` ranges over the slice header it read before the loop, so it
  keeps indexing the mutated backing array with the old length; this is
  modelled by carrying the backing array `arr` (fixed physical length) and
  the current logical length `len` through the publish loop.
* `sync.WaitGroup` is the counter `wg`; a goroutine spawned by
  `go bus.doPublishAsync(...)` that has not run yet is an entry of
  `pending`.  Running one pending task is a separate step, giving the
  sequential interleaving semantics of the concurrent program.
* A `reflect.Value.Call` with a wrong number of arguments or with the zero
  `reflect.Value` (produced by `reflect.ValueOf(nil)`) panics.  In the
  synchronous path the panic propagates to `Publish`'s caller (who may
  recover).  In a goroutine there is no recover anywhere in the package, so
  per Go semantics an async call panic terminates the whole program,
  modelled by the `crashed` flag; a crashed program takes no further steps.
-/

set_option linter.unusedVariables false

/-- An element of `args ...interface{}` passed to `Publish`: `none` models a
nil interface value (for which `reflect.ValueOf` yields the zero `Value`),
`some v` a non-nil value. -/
abbrev Arg := Option Nat

/-- Identity of a Go function value as captured by `reflect.ValueOf`: `id`
models the function pointer (equal exactly for the same function value) and
`arity` the number of declared parameters of its type. -/
structure Callback where
  id : Nat
  arity : Nat
deriving DecidableEq, Repr

/-- The `eventHandler` struct of event_bus.go.  The embedded `sync.Mutex`
only serializes transactional async executions and has no observable effect
in the sequential interleaving semantics, so it carries no data here. -/
structure eventHandler where
  callBack : Callback
  flagOnce : Bool
  async : Bool
  transactional : Bool
  called : Bool
deriving DecidableEq, Repr

instance : Inhabited eventHandler := ⟨⟨⟨0, 0⟩, false, false, false, false⟩⟩

/-- Dereference a `*eventHandler` (a heap index). -/
def getH : List eventHandler → Nat → eventHandler
  | [], _ => default
  | h :: _, 0 => h
  | _ :: hs, n + 1 => getH hs n

/-- The write `handler.called = true` through a handler pointer. -/
def setCalled : List eventHandler → Nat → List eventHandler
  | [], _ => []
  | h :: hs, 0 => { h with called := true } :: hs
  | h :: hs, n + 1 => h :: setCalled hs n

/-- The `EventBus` struct plus the world state needed for the sequential
interleaving semantics: `handlers`, `wg` are the struct fields (`lock` is
represented by the atomicity of each operation and by the `locked` tag on
call events), `heap` holds the `eventHandler` objects the registry points
to, `pending` the spawned goroutines that have not run yet, and `crashed`
records that an unrecovered panic in a goroutine terminated the program. -/
structure EventBus where
  handlers : List (String × List Nat)
  heap : List eventHandler
  wg : Nat
  pending : List (Nat × String × List Arg)
  crashed : Bool
deriving DecidableEq, Repr

/-- `New()` returns a bus with an empty handler map. -/
def New : EventBus := ⟨[], [], 0, [], false⟩

/-- Go map read `bus.handlers[topic]` together with the `ok` flag. -/
def mapLookup : List (String × List Nat) → String → Option (List Nat)
  | [], _ => none
  | (k, v) :: m, t => if k = t then some v else mapLookup m t

/-- Go map write `bus.handlers[topic] = v`. -/
def mapSet : List (String × List Nat) → String → List Nat → List (String × List Nat)
  | [], t, v => [(t, v)]
  | (k, w) :: m, t, v => if k = t then (k, v) :: m else (k, w) :: mapSet m t v

/-- The binding list of a topic (`nil` slice for a missing key, as in Go,
where `append` and `len` treat a missing key as the empty slice). -/
def bindingsOf (bus : EventBus) (t : String) : List Nat :=
  (mapLookup bus.handlers t).getD []

/-- The `fn interface{}` argument of the four Subscribe variants:
nil, a non-function value, or a function value. -/
inductive HandlerArg where
  | nilArg
  | nonFunc
  | fn (cb : Callback)

/-- Outcome of a Subscribe variant.  `panicked`: `reflect.TypeOf(fn)` is the
nil `reflect.Type` when `fn` is nil, and calling `Kind()` on a nil interface
value panics.  `invalidHandlerError` is the
`fmt.Errorf("%s is not of type reflect.Func", ...)` return. -/
inductive SubResult where
  | panicked
  | invalidHandlerError
  | ok
deriving DecidableEq, Repr

/-- Common body of the four Subscribe variants: validate the kind of `fn`,
then append a fresh `eventHandler` (a new pointer, hence a fresh heap index)
with the given flags to the topic's slice. -/
def subscribeWith (bus : EventBus) (topic : String) (fnArg : HandlerArg)
    (once async transactional : Bool) : EventBus × SubResult :=
  match fnArg with
  | .nilArg => (bus, .panicked)
  | .nonFunc => (bus, .invalidHandlerError)
  | .fn cb =>
      ({ bus with
          heap := bus.heap ++ [⟨cb, once, async, transactional, false⟩],
          handlers := mapSet bus.handlers topic (bindingsOf bus topic ++ [bus.heap.length]) },
       .ok)

/-- `Subscribe`: flags false/false/false. -/
def Subscribe (bus : EventBus) (topic : String) (fnArg : HandlerArg) : EventBus × SubResult :=
  subscribeWith bus topic fnArg false false false

/-- `SubscribeAsync`: async=true, transactional as given. -/
def SubscribeAsync (bus : EventBus) (topic : String) (fnArg : HandlerArg)
    (transactional : Bool) : EventBus × SubResult :=
  subscribeWith bus topic fnArg false true transactional

/-- `SubscribeOnce`: flagOnce=true. -/
def SubscribeOnce (bus : EventBus) (topic : String) (fnArg : HandlerArg) : EventBus × SubResult :=
  subscribeWith bus topic fnArg true false false

/-- `SubscribeOnceAsync`: flagOnce=true, async=true. -/
def SubscribeOnceAsync (bus : EventBus) (topic : String) (fnArg : HandlerArg) :
    EventBus × SubResult :=
  subscribeWith bus topic fnArg true true false

/-- `HasCallback`: key present and slice non-empty. -/
def HasCallback (bus : EventBus) (topic : String) : Bool :=
  match mapLookup bus.handlers topic with
  | some l => decide (0 < l.length)
  | none => false

/-- `findHandlerIdx`: index of the first handler in the topic's slice whose
`callBack` reflect.Value equals `callback`; `none` models the -1 return. -/
def findHandlerIdx (heap : List eventHandler) : List Nat → Callback → Option Nat
  | [], _ => none
  | j :: rest, cb =>
      if (getH heap j).callBack = cb then some 0
      else (findHandlerIdx heap rest cb).map (· + 1)

/-- Effect of `bus.handlers[topic] = append(s[:i], s[i+1:]...)` on the
backing array of physical length `arr.length` whose first `len` entries form
the stored slice: entries `i+1 .. len-1` shift left one place, entries from
`len-1` on keep their old (now partially stale) values, and the stored
length becomes `len - 1`. -/
def removeShift (arr : List Nat) (i len : Nat) : List Nat :=
  arr.take i ++ (arr.drop (i + 1)).take (len - 1 - i) ++ arr.drop (len - 1)

/-- Index into a Go array/slice backing store (out of range never happens in
the modelled program; 0 is a dummy). -/
def nthD : List Nat → Nat → Nat
  | [], _ => 0
  | x :: _, 0 => x
  | _ :: l, n + 1 => nthD l n

/-- Panics of `reflect.Value.Call`: the arity checks come first, then each
argument is checked against the zero `Value` (which `reflect.ValueOf(nil)`
produces, so a nil publish argument trips this check). -/
inductive PanicKind where
  | tooFewArgs
  | tooManyArgs
  | zeroValueArg
deriving DecidableEq, Repr

/-- Whether `handler.callBack.Call(passedArguments)` panics, and how.
`setUpPublish` itself never panics: `reflect.ValueOf(arg)` merely yields the
zero `Value` for a nil `arg`. -/
def callOutcome (cb : Callback) (args : List Arg) : Option PanicKind :=
  if args.length < cb.arity then some .tooFewArgs
  else if cb.arity < args.length then some .tooManyArgs
  else if args.contains none then some .zeroValueArg
  else none

/-- One successful execution of a callback body.  `locked` records whether
the dispatcher's structural lock `bus.lock` was held by the invoking
operation at the moment of the call. -/
structure Event where
  hid : Nat
  cb : Callback
  args : List Arg
  locked : Bool
deriving DecidableEq, Repr

/-- Result of `doPublish`: the possibly mutated heap, the possibly shifted
backing array and logical length of the topic's slice, the call events
emitted, and the panic if the reflect call panicked. -/
structure DoPubRes where
  heap : List eventHandler
  arr : List Nat
  len : Nat
  events : List Event
  panics : Option PanicKind
deriving Repr

/-- `doPublish(handler, topic, args...)` acting on the topic's slice given
as backing array `arr` with logical length `len`.  Mirrors the source: build
the arguments, if `flagOnce` remove the first handler with the same
`callBack` value, return early if the latch `called` is already set, set the
latch, and perform the reflect call. -/
def doPublish (heap : List eventHandler) (arr : List Nat) (len : Nat)
    (hid : Nat) (args : List Arg) (locked : Bool) : DoPubRes :=
  let h := getH heap hid
  let rem :=
    if h.flagOnce then
      match findHandlerIdx heap (arr.take len) h.callBack with
      | some i => (removeShift arr i len, len - 1)
      | none => (arr, len)
    else (arr, len)
  if h.flagOnce && h.called then
    ⟨heap, rem.1, rem.2, [], none⟩
  else
    let heap1 := setCalled heap hid
    match callOutcome h.callBack args with
    | some p => ⟨heap1, rem.1, rem.2, [], some p⟩
    | none => ⟨heap1, rem.1, rem.2, [⟨hid, h.callBack, args, locked⟩], none⟩

/-- State threaded through `Publish`'s loop: heap, the snapshot's backing
array and the current logical length of the stored slice, and the wait-group
counter and spawned goroutines. -/
structure PubState where
  heap : List eventHandler
  arr : List Nat
  len : Nat
  wg : Nat
  pending : List (Nat × String × List Arg)
deriving Repr

/-- The `for _, handler := range handlers` loop of `Publish`.  The range
clause fixed the iteration count (the snapshot length, supplied as `fuel`)
and each iteration reads element `k` of the shared backing array afresh.  A
synchronous handler runs inline (with the lock held, since the unlock is
deferred to the end of `Publish`); a panic of the reflect call unwinds the
loop.  An asynchronous handler increments the wait group and spawns a
goroutine. -/
def publishLoop (topic : String) (args : List Arg) :
    Nat → Nat → PubState → PubState × List Event × Option PanicKind
  | 0, _, s => (s, [], none)
  | fuel + 1, k, s =>
      let hid := nthD s.arr k
      if (getH s.heap hid).async then
        publishLoop topic args fuel (k + 1)
          { s with wg := s.wg + 1, pending := s.pending ++ [(hid, topic, args)] }
      else
        let r := doPublish s.heap s.arr s.len hid args true
        let s1 : PubState := { s with heap := r.heap, arr := r.arr, len := r.len }
        match r.panics with
        | some p => (s1, r.events, some p)
        | none =>
            let rest := publishLoop topic args fuel (k + 1) s1
            (rest.1, r.events ++ rest.2.1, rest.2.2)

/-- `Publish(topic, args...)`: read the slice header for the topic (missing
key: plain return), loop over its elements, and store the final slice header
back (the map is written only inside `removeHandler`, i.e. only when the
logical length shrank). -/
def Publish (bus : EventBus) (topic : String) (args : List Arg) :
    EventBus × List Event × Option PanicKind :=
  match mapLookup bus.handlers topic with
  | none => (bus, [], none)
  | some hs =>
      let r := publishLoop topic args hs.length 0 ⟨bus.heap, hs, hs.length, bus.wg, bus.pending⟩
      ({ bus with
          heap := r.1.heap,
          handlers :=
            if r.1.len = hs.length then bus.handlers
            else mapSet bus.handlers topic (r.1.arr.take r.1.len),
          wg := r.1.wg,
          pending := r.1.pending },
       r.2.1, r.2.2)

/-- Result of `Unsubscribe`: nil or the
`fmt.Errorf("topic %s doesn't exist", topic)` error. -/
inductive UnsubResult where
  | ok
  | unknownTopicError
deriving DecidableEq, Repr

/-- `Unsubscribe(topic, handler)`: error when the key is missing or the
slice is empty, otherwise `removeHandler` on the first handler whose
callback value equals `handler` (a no-op when none matches). -/
def Unsubscribe (bus : EventBus) (topic : String) (cb : Callback) : EventBus × UnsubResult :=
  match mapLookup bus.handlers topic with
  | some l =>
      if 0 < l.length then
        (match findHandlerIdx bus.heap l cb with
         | some i =>
             { bus with
                handlers :=
                  mapSet bus.handlers topic ((removeShift l i l.length).take (l.length - 1)) }
         | none => bus,
         .ok)
      else (bus, .unknownTopicError)
  | none => (bus, .unknownTopicError)

/-- Running one spawned goroutine `go bus.doPublishAsync(handler, topic,
args...)`: `doPublish` on the current slice of the topic (no snapshot is
live here), then the deferred `bus.wg.Done()`, which runs even while a panic
unwinds; an unrecovered panic in the goroutine then terminates the program
(`crashed`).  The transactional per-handler mutex only orders executions and
is invisible to the sequential interleaving semantics. -/
def runTask (bus : EventBus) (hid : Nat) (topic : String) (args : List Arg) :
    EventBus × List Event :=
  let l := bindingsOf bus topic
  let r := doPublish bus.heap l l.length hid args false
  ({ bus with
      heap := r.heap,
      handlers :=
        if r.len = l.length then bus.handlers
        else mapSet bus.handlers topic (r.arr.take r.len),
      wg := bus.wg - 1,
      crashed := bus.crashed || r.panics.isSome },
   r.events)

/-- Position `n` of the goroutine queue. -/
def taskAt : List (Nat × String × List Arg) → Nat → Option (Nat × String × List Arg)
  | [], _ => none
  | x :: _, 0 => some x
  | _ :: l, n + 1 => taskAt l n

/-- Remove position `n` of the goroutine queue. -/
def eraseTask : List (Nat × String × List Arg) → Nat → List (Nat × String × List Arg)
  | [], _ => []
  | _ :: l, 0 => l
  | x :: l, n + 1 => x :: eraseTask l n

/-- The operations a client or the goroutine scheduler can perform; the
scheduler may run any pending goroutine, hence `runTaskAt n`. -/
inductive Op where
  | subscribe (t : String) (a : HandlerArg)
  | subscribeOnce (t : String) (a : HandlerArg)
  | subscribeAsync (t : String) (a : HandlerArg) (tr : Bool)
  | subscribeOnceAsync (t : String) (a : HandlerArg)
  | unsubscribe (t : String) (cb : Callback)
  | hasCallback (t : String)
  | publish (t : String) (args : List Arg)
  | runTaskAt (n : Nat)

/-- One atomic step of the sequential interleaving semantics.  A crashed
program takes no steps.  A panic escaping `Publish` propagates to that
caller (who may recover), so it does not crash the model. -/
def step (bus : EventBus) : Op → EventBus × List Event :=
  fun op =>
    if bus.crashed then (bus, [])
    else
      match op with
      | .subscribe t a => ((Subscribe bus t a).1, [])
      | .subscribeOnce t a => ((SubscribeOnce bus t a).1, [])
      | .subscribeAsync t a tr => ((SubscribeAsync bus t a tr).1, [])
      | .subscribeOnceAsync t a => ((SubscribeOnceAsync bus t a).1, [])
      | .unsubscribe t cb => ((Unsubscribe bus t cb).1, [])
      | .hasCallback _ => (bus, [])
      | .publish t args =>
          let r := Publish bus t args
          (r.1, r.2.1)
      | .runTaskAt n =>
          match taskAt bus.pending n with
          | some task => runTask { bus with pending := eraseTask bus.pending n } task.1 task.2.1 task.2.2
          | none => (bus, [])

/-- Run a list of operations, collecting all call events. -/
def runList : EventBus → List Op → EventBus × List Event
  | bus, [] => (bus, [])
  | bus, op :: ops =>
      let r := step bus op
      let r2 := runList r.1 ops
      (r2.1, r.2 ++ r2.2)

/-- Number of executions of the callback body of binding `i` in an event
trace. -/
def countEvents : List Event → Nat → Nat
  | [], _ => 0
  | e :: es, i => (if e.hid = i then 1 else 0) + countEvents es i

/-- `WaitAsync()` (`bus.wg.Wait()`) returns exactly when the wait-group
counter is zero. -/
def WaitAsyncUnblocked (bus : EventBus) : Prop := bus.wg = 0

/-! Basic lemmas about the heap, the map, and the slice operations. -/

theorem length_setCalled (l : List eventHandler) (i : Nat) :
    (setCalled l i).length = l.length := by
  induction l generalizing i with
  | nil => simp [setCalled]
  | cons h hs ih =>
      cases i with
      | zero => simp [setCalled]
      | succ n => simp [setCalled, ih]

theorem getH_setCalled_ne (l : List eventHandler) (i j : Nat) (h : j ≠ i) :
    getH (setCalled l i) j = getH l j := by
  induction l generalizing i j with
  | nil => simp [setCalled]
  | cons a hs ih =>
      cases i with
      | zero =>
          cases j with
          | zero => exact absurd rfl h
          | succ m => simp [setCalled, getH]
      | succ n =>
          cases j with
          | zero => simp [setCalled, getH]
          | succ m =>
              simp only [setCalled, getH]
              exact ih n m (fun hc => h (by omega))

theorem getH_setCalled_self (l : List eventHandler) (i : Nat) (h : i < l.length) :
    getH (setCalled l i) i = { getH l i with called := true } := by
  induction l generalizing i with
  | nil => simp at h
  | cons a hs ih =>
      cases i with
      | zero => simp [setCalled, getH]
      | succ n =>
          simp only [setCalled, getH]
          exact ih n (by simpa using h)

theorem getH_oob (l : List eventHandler) (i : Nat) (h : l.length ≤ i) :
    getH l i = default := by
  induction l generalizing i with
  | nil => cases i <;> simp [getH]
  | cons a hs ih =>
      cases i with
      | zero => simp at h
      | succ n => simpa [getH] using ih n (by simpa using h)

theorem setCalled_oob (l : List eventHandler) (i : Nat) (h : l.length ≤ i) :
    setCalled l i = l := by
  induction l generalizing i with
  | nil => simp [setCalled]
  | cons a hs ih =>
      cases i with
      | zero => simp at h
      | succ n => simpa [setCalled] using ih n (by simpa using h)

theorem flags_setCalled (l : List eventHandler) (i j : Nat) :
    (getH (setCalled l i) j).callBack = (getH l j).callBack ∧
    (getH (setCalled l i) j).flagOnce = (getH l j).flagOnce ∧
    (getH (setCalled l i) j).async = (getH l j).async := by
  by_cases hji : j = i
  · subst hji
    by_cases hl : j < l.length
    · rw [getH_setCalled_self l j hl]; exact ⟨rfl, rfl, rfl⟩
    · rw [setCalled_oob]
      · exact ⟨rfl, rfl, rfl⟩
      · omega
  · rw [getH_setCalled_ne l i j hji]; exact ⟨rfl, rfl, rfl⟩

theorem called_mono_setCalled (l : List eventHandler) (i j : Nat)
    (h : (getH l j).called = true) : (getH (setCalled l i) j).called = true := by
  by_cases hji : j = i
  · subst hji
    by_cases hl : j < l.length
    · rw [getH_setCalled_self l j hl]
    · rw [setCalled_oob l j (by omega)]; exact h
  · rw [getH_setCalled_ne l i j hji]; exact h

theorem getH_append_lt (l l2 : List eventHandler) (i : Nat) (h : i < l.length) :
    getH (l ++ l2) i = getH l i := by
  induction l generalizing i with
  | nil => simp at h
  | cons a hs ih =>
      cases i with
      | zero => simp [getH]
      | succ n => simpa [getH] using ih n (by simpa using h)

theorem getH_append_self (l : List eventHandler) (h : eventHandler) :
    getH (l ++ [h]) l.length = h := by
  induction l with
  | nil => simp [getH]
  | cons a hs ih => simpa [getH] using ih

theorem nthD_of_drop : ∀ (k : Nat) (l : List Nat) (x : Nat) (t : List Nat),
    l.drop k = x :: t → nthD l k = x := by
  intro k
  induction k with
  | zero =>
      intro l x t h
      simp only [List.drop_zero] at h
      subst h; rfl
  | succ n ih =>
      intro l x t h
      cases l with
      | nil => simp at h
      | cons a l => exact ih l x t h

theorem nthD_mem (l : List Nat) (k : Nat) (h : k < l.length) : nthD l k ∈ l := by
  induction l generalizing k with
  | nil => simp at h
  | cons a l ih =>
      cases k with
      | zero => simp [nthD]
      | succ n =>
          simp only [nthD]
          exact List.mem_cons_of_mem a (ih n (by simpa using h))

theorem mapLookup_mapSet_self (m : List (String × List Nat)) (t : String) (v : List Nat) :
    mapLookup (mapSet m t v) t = some v := by
  induction m with
  | nil => simp [mapSet, mapLookup]
  | cons p m ih =>
      obtain ⟨k, w⟩ := p
      by_cases hk : k = t
      · simp [mapSet, mapLookup, hk]
      · simp [mapSet, mapLookup, hk, ih]

theorem mapLookup_mapSet_ne (m : List (String × List Nat)) (t t' : String) (v : List Nat)
    (h : t' ≠ t) : mapLookup (mapSet m t v) t' = mapLookup m t' := by
  induction m with
  | nil =>
      simp only [mapSet, mapLookup]
      rw [if_neg (fun hc => h hc.symm)]
  | cons p m ih =>
      obtain ⟨k, w⟩ := p
      simp only [mapSet]
      by_cases hk : k = t
      · rw [if_pos hk]
        have hk' : ¬k = t' := by rw [hk]; exact fun hc => h hc.symm
        simp only [mapLookup, if_neg hk']
      · rw [if_neg hk]
        by_cases hk2 : k = t'
        · simp only [mapLookup, if_pos hk2]
        · simp only [mapLookup, if_neg hk2]
          exact ih

theorem findHandlerIdx_lt (heap : List eventHandler) (l : List Nat) (cb : Callback) :
    ∀ i, findHandlerIdx heap l cb = some i → i < l.length := by
  induction l with
  | nil => intro i h; simp [findHandlerIdx] at h
  | cons j rest ih =>
      intro i h
      simp only [findHandlerIdx] at h
      by_cases hc : (getH heap j).callBack = cb
      · rw [if_pos hc] at h
        cases h; simp
      · rw [if_neg hc] at h
        cases hfi : findHandlerIdx heap rest cb with
        | none => rw [hfi] at h; simp at h
        | some i0 =>
            rw [hfi] at h
            simp only [Option.map_some'] at h
            cases h
            have := ih i0 hfi
            simp; omega

theorem findHandlerIdx_match (heap : List eventHandler) (l : List Nat) (cb : Callback) :
    ∀ i, findHandlerIdx heap l cb = some i → (getH heap (nthD l i)).callBack = cb := by
  induction l with
  | nil => intro i h; simp [findHandlerIdx] at h
  | cons j rest ih =>
      intro i h
      simp only [findHandlerIdx] at h
      by_cases hc : (getH heap j).callBack = cb
      · rw [if_pos hc] at h
        cases h; exact hc
      · rw [if_neg hc] at h
        cases hfi : findHandlerIdx heap rest cb with
        | none => rw [hfi] at h; simp at h
        | some i0 =>
            rw [hfi] at h
            simp only [Option.map_some'] at h
            cases h
            exact ih i0 hfi

theorem findHandlerIdx_first (heap : List eventHandler) (l : List Nat) (cb : Callback) :
    ∀ i, findHandlerIdx heap l cb = some i →
      ∀ j, j < i → (getH heap (nthD l j)).callBack ≠ cb := by
  induction l with
  | nil => intro i h; simp [findHandlerIdx] at h
  | cons a rest ih =>
      intro i h j hj
      simp only [findHandlerIdx] at h
      by_cases hc : (getH heap a).callBack = cb
      · rw [if_pos hc] at h
        cases h; omega
      · rw [if_neg hc] at h
        cases hfi : findHandlerIdx heap rest cb with
        | none => rw [hfi] at h; simp at h
        | some i0 =>
            rw [hfi] at h
            simp only [Option.map_some'] at h
            cases h
            cases j with
            | zero => exact hc
            | succ m => exact ih i0 hfi m (by omega)

theorem removeShift_length (arr : List Nat) (i len : Nat) (h1 : i < len)
    (h2 : len ≤ arr.length) : (removeShift arr i len).length = arr.length := by
  simp only [removeShift, List.length_append, List.length_take, List.length_drop]
  omega

theorem removeShift_subset (arr : List Nat) (i len : Nat) :
    ∀ x ∈ removeShift arr i len, x ∈ arr := by
  intro x hx
  simp only [removeShift, List.mem_append] at hx
  rcases hx with (hx | hx) | hx
  · exact List.take_subset _ _ hx
  · exact List.drop_subset _ _ (List.take_subset _ _ hx)
  · exact List.drop_subset _ _ hx

theorem removeShift_take (l : List Nat) (i : Nat) (h : i < l.length) :
    (removeShift l i l.length).take (l.length - 1) = l.take i ++ l.drop (i + 1) := by
  have hmid : (l.drop (i + 1)).take (l.length - 1 - i) = l.drop (i + 1) := by
    have hlen : (l.drop (i + 1)).length = l.length - 1 - i := by
      simp [List.length_drop]; omega
    rw [← hlen, List.take_length]
  have hlenAB : (l.take i ++ l.drop (i + 1)).length = l.length - 1 := by
    simp only [List.length_append, List.length_take, List.length_drop]
    omega
  calc (removeShift l i l.length).take (l.length - 1)
      = ((l.take i ++ l.drop (i + 1)) ++ l.drop (l.length - 1)).take (l.length - 1) := by
        simp only [removeShift, hmid, List.append_assoc]
    _ = ((l.take i ++ l.drop (i + 1)) ++ l.drop (l.length - 1)).take
          (l.take i ++ l.drop (i + 1)).length := by rw [hlenAB]
    _ = l.take i ++ l.drop (i + 1) := List.take_left _ _

theorem countEvents_append (a b : List Event) (i : Nat) :
    countEvents (a ++ b) i = countEvents a i + countEvents b i := by
  induction a with
  | nil => simp [countEvents]
  | cons e es ih => simp [countEvents, ih]; omega

theorem taskAt_mem (l : List (Nat × String × List Arg)) :
    ∀ n x, taskAt l n = some x → x ∈ l := by
  induction l with
  | nil => intro n x h; cases n <;> simp [taskAt] at h
  | cons a l ih =>
      intro n x h
      cases n with
      | zero => simp [taskAt] at h; simp [h]
      | succ m => exact List.mem_cons_of_mem a (ih m x h)

theorem eraseTask_subset (l : List (Nat × String × List Arg)) :
    ∀ n x, x ∈ eraseTask l n → x ∈ l := by
  induction l with
  | nil => intro n x h; cases n <;> simp [eraseTask] at h
  | cons a l ih =>
      intro n x h
      cases n with
      | zero => exact List.mem_cons_of_mem a (by simpa [eraseTask] using h)
      | succ m =>
          simp only [eraseTask, List.mem_cons] at h
          rcases h with h | h
          · simp [h]
          · exact List.mem_cons_of_mem a (ih m x h)

theorem taskAt_lt (l : List (Nat × String × List Arg)) :
    ∀ n x, taskAt l n = some x → n < l.length := by
  induction l with
  | nil => intro n x h; cases n <;> simp [taskAt] at h
  | cons a l ih =>
      intro n x h
      cases n with
      | zero => simp
      | succ m =>
          have := ih m x h
          simp; omega

theorem length_eraseTask (l : List (Nat × String × List Arg)) :
    ∀ n x, taskAt l n = some x → (eraseTask l n).length = l.length - 1 := by
  induction l with
  | nil => intro n x h; cases n <;> simp [taskAt] at h
  | cons a l ih =>
      intro n x h
      cases n with
      | zero => simp [eraseTask]
      | succ m =>
          have h1 := ih m x h
          have h2 := taskAt_lt l m x h
          simp only [eraseTask, List.length_cons, h1]
          omega

/-! Invariants of `doPublish`, the publish loop, and whole runs. -/

/-- The immutable part of a handler object: everything except the `called`
latch. -/
def flagsEq (a b : eventHandler) : Prop :=
  a.callBack = b.callBack ∧ a.flagOnce = b.flagOnce ∧ a.async = b.async

/-- One if the `called` latch of handler `i` is set, zero otherwise. -/
def cbit (heap : List eventHandler) (i : Nat) : Nat :=
  if (getH heap i).called then 1 else 0

theorem flagsEq_refl (a : eventHandler) : flagsEq a a := ⟨rfl, rfl, rfl⟩

theorem flagsEq_trans {a b c : eventHandler} (h1 : flagsEq a b) (h2 : flagsEq b c) :
    flagsEq a c :=
  ⟨h1.1.trans h2.1, h1.2.1.trans h2.2.1, h1.2.2.trans h2.2.2⟩


theorem cbit_le_setCalled (heap : List eventHandler) (hid i : Nat) :
    cbit heap i ≤ cbit (setCalled heap hid) i := by
  unfold cbit
  by_cases hc : (getH heap i).called = true
  · rw [if_pos hc, if_pos (called_mono_setCalled heap hid i hc)]
  · rw [if_neg hc]
    exact Nat.zero_le _

theorem cbit_le_one (heap : List eventHandler) (i : Nat) : cbit heap i ≤ 1 := by
  unfold cbit; split <;> simp

theorem cbit_setCalled_self (heap : List eventHandler) (i : Nat) (h : i < heap.length) :
    cbit (setCalled heap i) i = 1 := by
  simp [cbit, getH_setCalled_self heap i h]

theorem cbit_setCalled_ne (heap : List eventHandler) (hid i : Nat) (h : i ≠ hid) :
    cbit (setCalled heap hid) i = cbit heap i := by
  unfold cbit
  rw [getH_setCalled_ne heap hid i h]

/-- Shape of the heap after `doPublish`: unchanged, or with the latch of the
dereferenced handler set. -/
theorem doPublish_heap_or (heap : List eventHandler) (arr : List Nat) (len hid : Nat)
    (args : List Arg) (locked : Bool) :
    (doPublish heap arr len hid args locked).heap = heap ∨
    (doPublish heap arr len hid args locked).heap = setCalled heap hid := by
  simp only [doPublish]
  split
  · exact Or.inl rfl
  · split
    · exact Or.inr rfl
    · exact Or.inr rfl

/-- Shape of the event list of `doPublish`: empty, or exactly one execution
of the dereferenced handler, which then had a clear latch (when it is a
once handler) and gets its latch set. -/
theorem doPublish_events_or (heap : List eventHandler) (arr : List Nat) (len hid : Nat)
    (args : List Arg) (locked : Bool) :
    (doPublish heap arr len hid args locked).events = [] ∨
    ((doPublish heap arr len hid args locked).events =
        [⟨hid, (getH heap hid).callBack, args, locked⟩] ∧
      (doPublish heap arr len hid args locked).heap = setCalled heap hid ∧
      ((getH heap hid).flagOnce = true → (getH heap hid).called = false)) := by
  simp only [doPublish]
  split
  · exact Or.inl rfl
  · rename_i hguard
    have hg : (getH heap hid).flagOnce = true → (getH heap hid).called = false := by
      intro ho
      cases hc : (getH heap hid).called
      · rfl
      · exact absurd (by simp [ho, hc]) hguard
    split
    · exact Or.inl rfl
    · exact Or.inr ⟨rfl, rfl, hg⟩

/-- Shape of the topic slice after `doPublish`: untouched, or one
`removeShift` at the index found for the handler's callback (which exists
only in the `flagOnce` branch). -/
theorem doPublish_arr_or (heap : List eventHandler) (arr : List Nat) (len hid : Nat)
    (args : List Arg) (locked : Bool) :
    ((doPublish heap arr len hid args locked).arr = arr ∧
      (doPublish heap arr len hid args locked).len = len) ∨
    (∃ i, findHandlerIdx heap (arr.take len) (getH heap hid).callBack = some i ∧
      (doPublish heap arr len hid args locked).arr = removeShift arr i len ∧
      (doPublish heap arr len hid args locked).len = len - 1) := by
  by_cases ho : (getH heap hid).flagOnce = true
  · cases hfi : findHandlerIdx heap (arr.take len) (getH heap hid).callBack with
    | none =>
        left
        constructor <;>
          · simp only [doPublish, ho, hfi, if_true]
            split
            · rfl
            · split <;> rfl
    | some i0 =>
        right
        refine ⟨i0, rfl, ?_, ?_⟩ <;>
          · simp only [doPublish, ho, hfi, if_true]
            split
            · rfl
            · split <;> rfl
  · have ho' : (getH heap hid).flagOnce = false := by
      cases h : (getH heap hid).flagOnce
      · rfl
      · exact absurd h ho
    left
    constructor <;>
      · simp only [doPublish, ho', Bool.false_and, Bool.false_eq_true, if_false]
      
        split <;> rfl

/-- Everything the run-level invariants need from one `doPublish` call: the
heap keeps its length, flags and set latches; the backing array keeps its
length and gains no entries; the logical length never grows; and the number
of body executions of a handler `i` plus its previous latch bit is bounded
by its new latch bit, provided the dereferenced pointer is a real heap entry
and handler `i`, if it exists, is a once handler. -/
theorem doPublish_spec (heap : List eventHandler) (arr : List Nat) (len hid : Nat)
    (args : List Arg) (locked : Bool) (hlen : len ≤ arr.length) :
    (doPublish heap arr len hid args locked).heap.length = heap.length ∧
    (∀ j, flagsEq (getH (doPublish heap arr len hid args locked).heap j) (getH heap j)) ∧
    (∀ j, (getH heap j).called = true →
       (getH (doPublish heap arr len hid args locked).heap j).called = true) ∧
    (doPublish heap arr len hid args locked).arr.length = arr.length ∧
    (doPublish heap arr len hid args locked).len ≤ len ∧
    (∀ x ∈ (doPublish heap arr len hid args locked).arr, x ∈ arr) ∧
    (∀ i, hid < heap.length → (i < heap.length → (getH heap i).flagOnce = true) →
       countEvents (doPublish heap arr len hid args locked).events i + cbit heap i ≤
         cbit (doPublish heap arr len hid args locked).heap i) := by
  refine ⟨?_, ?_, ?_, ?_, ?_, ?_, ?_⟩
  · rcases doPublish_heap_or heap arr len hid args locked with h | h <;> rw [h]
    exact length_setCalled heap hid
  · intro j
    rcases doPublish_heap_or heap arr len hid args locked with h | h <;> rw [h]
    · exact flagsEq_refl _
    · exact flags_setCalled heap hid j
  · intro j hj
    rcases doPublish_heap_or heap arr len hid args locked with h | h <;> rw [h]
    · exact hj
    · exact called_mono_setCalled heap hid j hj
  · rcases doPublish_arr_or heap arr len hid args locked with ⟨h, _⟩ | ⟨i, hfi, h, _⟩ <;> rw [h]
    have hi := findHandlerIdx_lt heap (arr.take len) (getH heap hid).callBack i hfi
    have hi' : i < len := by
      have ht : (arr.take len).length = len := by
        simp [List.length_take]; omega
      omega
    exact removeShift_length arr i len hi' hlen
  · rcases doPublish_arr_or heap arr len hid args locked with ⟨_, h⟩ | ⟨i, _, _, h⟩ <;> rw [h]
    omega
  · intro x hx
    rcases doPublish_arr_or heap arr len hid args locked with ⟨h, _⟩ | ⟨i, _, h, _⟩ <;> rw [h] at hx
    · exact hx
    · exact removeShift_subset arr i len x hx
  · intro i hhid hio
    rcases doPublish_events_or heap arr len hid args locked with h | ⟨hev, hhp, hlatch⟩
    · rw [h]
      rcases doPublish_heap_or heap arr len hid args locked with h2 | h2 <;> rw [h2]
      · simp [countEvents]
      · simpa [countEvents] using cbit_le_setCalled heap hid i
    · rw [hev, hhp]
      by_cases hi : hid = i
      · subst hi
        have honce := hio hhid
        have hc0 : cbit heap hid = 0 := by
          simp [cbit, hlatch honce]
        rw [hc0, cbit_setCalled_self heap hid hhid]
        simp [countEvents]
      · have h0 : countEvents [⟨hid, (getH heap hid).callBack, args, locked⟩] i = 0 := by
          simp [countEvents, hi]
        rw [h0, cbit_setCalled_ne heap hid i (fun hc => hi hc.symm)]
        simp

theorem publishLoop_async_eq (topic : String) (args : List Arg) (fuel k : Nat) (s : PubState)
    (h : (getH s.heap (nthD s.arr k)).async = true) :
    publishLoop topic args (fuel + 1) k s =
      publishLoop topic args fuel (k + 1)
        { s with wg := s.wg + 1, pending := s.pending ++ [(nthD s.arr k, topic, args)] } := by
  simp only [publishLoop, h, if_true]

theorem publishLoop_sync_panic_eq (topic : String) (args : List Arg) (fuel k : Nat)
    (s : PubState) (p : PanicKind)
    (h : (getH s.heap (nthD s.arr k)).async = false)
    (hp : (doPublish s.heap s.arr s.len (nthD s.arr k) args true).panics = some p) :
    publishLoop topic args (fuel + 1) k s =
      ({ s with heap := (doPublish s.heap s.arr s.len (nthD s.arr k) args true).heap,
                arr := (doPublish s.heap s.arr s.len (nthD s.arr k) args true).arr,
                len := (doPublish s.heap s.arr s.len (nthD s.arr k) args true).len },
       (doPublish s.heap s.arr s.len (nthD s.arr k) args true).events, some p) := by
  simp only [publishLoop, h, Bool.false_eq_true, if_false, hp]

theorem publishLoop_sync_ok_eq (topic : String) (args : List Arg) (fuel k : Nat)
    (s : PubState)
    (h : (getH s.heap (nthD s.arr k)).async = false)
    (hp : (doPublish s.heap s.arr s.len (nthD s.arr k) args true).panics = none) :
    publishLoop topic args (fuel + 1) k s =
      ((publishLoop topic args fuel (k + 1)
          { s with heap := (doPublish s.heap s.arr s.len (nthD s.arr k) args true).heap,
                   arr := (doPublish s.heap s.arr s.len (nthD s.arr k) args true).arr,
                   len := (doPublish s.heap s.arr s.len (nthD s.arr k) args true).len }).1,
       (doPublish s.heap s.arr s.len (nthD s.arr k) args true).events ++
         (publishLoop topic args fuel (k + 1)
           { s with heap := (doPublish s.heap s.arr s.len (nthD s.arr k) args true).heap,
                    arr := (doPublish s.heap s.arr s.len (nthD s.arr k) args true).arr,
                    len := (doPublish s.heap s.arr s.len (nthD s.arr k) args true).len }).2.1,
       (publishLoop topic args fuel (k + 1)
          { s with heap := (doPublish s.heap s.arr s.len (nthD s.arr k) args true).heap,
                   arr := (doPublish s.heap s.arr s.len (nthD s.arr k) args true).arr,
                   len := (doPublish s.heap s.arr s.len (nthD s.arr k) args true).len }).2.2) := by
  simp only [publishLoop, h, Bool.false_eq_true, if_false, hp]

/-- Invariants of the whole publish loop: the heap keeps its length, flags
and set latches; the backing array keeps its length and gains no entries;
goroutines added to the queue dereference entries of the snapshot; the
wait-group counter grows exactly by the number of goroutines spawned; and
body executions of a handler plus its old latch bit are bounded by its new
latch bit whenever every handler the snapshot can reach exists and handler
`i`, if it exists, is a once handler. -/
theorem publishLoop_spec (topic : String) (args : List Arg) :
    ∀ (fuel k : Nat) (s : PubState),
    (∀ j ∈ s.arr, j < s.heap.length) → s.len ≤ s.arr.length →
    k + fuel ≤ s.arr.length →
    (publishLoop topic args fuel k s).1.heap.length = s.heap.length ∧
    (∀ j, flagsEq (getH (publishLoop topic args fuel k s).1.heap j) (getH s.heap j)) ∧
    (∀ j, (getH s.heap j).called = true →
       (getH (publishLoop topic args fuel k s).1.heap j).called = true) ∧
    (publishLoop topic args fuel k s).1.arr.length = s.arr.length ∧
    (publishLoop topic args fuel k s).1.len ≤ s.arr.length ∧
    (∀ x ∈ (publishLoop topic args fuel k s).1.arr, x ∈ s.arr) ∧
    (∀ p ∈ (publishLoop topic args fuel k s).1.pending, p ∈ s.pending ∨ p.1 ∈ s.arr) ∧
    (publishLoop topic args fuel k s).1.wg + s.pending.length =
      s.wg + (publishLoop topic args fuel k s).1.pending.length ∧
    (∀ i, (i < s.heap.length → (getH s.heap i).flagOnce = true) →
       countEvents (publishLoop topic args fuel k s).2.1 i + cbit s.heap i ≤
         cbit (publishLoop topic args fuel k s).1.heap i) := by
  intro fuel
  induction fuel with
  | zero =>
      intro k s h1 h2 h3
      exact ⟨rfl, fun j => flagsEq_refl _, fun j hj => hj, rfl, h2,
             fun x hx => hx, fun p hp => Or.inl hp, rfl,
             fun i hio => by simp [publishLoop, countEvents]⟩
  | succ fuel ih =>
      intro k s h1 h2 h3
      have hk : k < s.arr.length := by omega
      have hhid : nthD s.arr k < s.heap.length := h1 _ (nthD_mem s.arr k hk)
      cases hasync : (getH s.heap (nthD s.arr k)).async with
      | true =>
          rw [publishLoop_async_eq topic args fuel k s hasync]
          have := ih (k + 1)
            { s with wg := s.wg + 1, pending := s.pending ++ [(nthD s.arr k, topic, args)] }
            h1 h2 (by simpa using by omega)
          obtain ⟨c1, c2, c3, c4, c5, c6, c7, c8, c9⟩ := this
          refine ⟨c1, c2, c3, c4, c5, c6, ?_, ?_, c9⟩
          · intro p hp
            rcases c7 p hp with hp2 | hp2
            · rcases List.mem_append.mp hp2 with hp3 | hp3
              · exact Or.inl hp3
              · right
                have : p = (nthD s.arr k, topic, args) := by simpa using hp3
                rw [this]
                exact nthD_mem s.arr k hk
            · exact Or.inr hp2
          · simp only [List.length_append, List.length_cons, List.length_nil] at c8
            omega
      | false =>
          obtain ⟨d1, d2, d3, d4, d5, d6, d7⟩ :=
            doPublish_spec s.heap s.arr s.len (nthD s.arr k) args true h2
          cases hpan : (doPublish s.heap s.arr s.len (nthD s.arr k) args true).panics with
          | some p =>
              rw [publishLoop_sync_panic_eq topic args fuel k s p hasync hpan]
              exact ⟨d1, d2, d3, d4, le_trans d5 h2, d6, fun q hq => Or.inl hq, rfl,
                     fun i hio => d7 i hhid hio⟩
          | none =>
              rw [publishLoop_sync_ok_eq topic args fuel k s hasync hpan]
              set s1 : PubState :=
                { s with heap := (doPublish s.heap s.arr s.len (nthD s.arr k) args true).heap,
                         arr := (doPublish s.heap s.arr s.len (nthD s.arr k) args true).arr,
                         len := (doPublish s.heap s.arr s.len (nthD s.arr k) args true).len }
                with hs1
              have e1 : ∀ j ∈ s1.arr, j < s1.heap.length := by
                intro j hj
                rw [hs1] at hj ⊢
                simp only at hj ⊢
                rw [d1]
                exact h1 j (d6 j hj)
              have e2 : s1.len ≤ s1.arr.length := by
                rw [hs1]
                simp only
                omega
              have e3 : (k + 1) + fuel ≤ s1.arr.length := by
                rw [hs1]
                simp only
                omega
              have := ih (k + 1) s1 e1 e2 e3
              obtain ⟨c1, c2, c3, c4, c5, c6, c7, c8, c9⟩ := this
              have hs1heap : s1.heap = (doPublish s.heap s.arr s.len (nthD s.arr k) args true).heap := rfl
              refine ⟨?_, ?_, ?_, ?_, ?_, ?_, ?_, ?_, ?_⟩
              · rw [c1, hs1heap, d1]
              · intro j
                exact flagsEq_trans (c2 j) (by rw [hs1heap]; exact d2 j)
              · intro j hj
                exact c3 j (by rw [hs1heap]; exact d3 j hj)
              · rw [c4]
                show (doPublish s.heap s.arr s.len (nthD s.arr k) args true).arr.length = _
                exact d4
              · show (publishLoop topic args fuel (k + 1) s1).1.len ≤ s.arr.length
                have b1 : s1.arr.length =
                    (doPublish s.heap s.arr s.len (nthD s.arr k) args true).arr.length := rfl
                omega
              · intro x hx
                exact d6 x (c6 x hx)
              · intro q hq
                rcases c7 q hq with hq2 | hq2
                · exact Or.inl hq2
                · exact Or.inr (d6 _ hq2)
              · exact c8
              · intro i hio
                have hio1 : i < s1.heap.length → (getH s1.heap i).flagOnce = true := by
                  intro hi
                  have hlen1 : s1.heap.length = s.heap.length := by rw [hs1heap, d1]
                  have := (d2 i).2.1
                  rw [hs1heap] at *
                  rw [this]
                  exact hio (by omega)
                have key1 := d7 i hhid hio
                have key2 := c9 i hio1
                show countEvents ((doPublish s.heap s.arr s.len (nthD s.arr k) args true).events ++
                    (publishLoop topic args fuel (k + 1) s1).2.1) i + cbit s.heap i ≤
                    cbit (publishLoop topic args fuel (k + 1) s1).1.heap i
                rw [countEvents_append]
                have hcb1 : cbit s1.heap i =
                    cbit (doPublish s.heap s.arr s.len (nthD s.arr k) args true).heap i := rfl
                omega

theorem default_called : (default : eventHandler).called = false := rfl

theorem cbit_append (l : List eventHandler) (h : eventHandler) (hc : h.called = false)
    (i : Nat) : cbit (l ++ [h]) i = cbit l i := by
  rcases Nat.lt_trichotomy i l.length with hlt | heq | hgt
  · unfold cbit
    rw [getH_append_lt l [h] i hlt]
  · subst heq
    unfold cbit
    rw [getH_append_self, getH_oob l _ (le_refl _)]
    simp [hc, default_called]
  · unfold cbit
    rw [getH_oob (l ++ [h]) i (by simp; omega), getH_oob l i (by omega)]

/-- Well-formedness of a bus state: every handler pointer stored in the
registry or in a spawned goroutine points into the heap. -/
def WF (bus : EventBus) : Prop :=
  (∀ t l, mapLookup bus.handlers t = some l → ∀ i ∈ l, i < bus.heap.length) ∧
  (∀ p ∈ bus.pending, p.1 < bus.heap.length)

theorem WF_New : WF New := by
  constructor
  · intro t l h
    simp [New, mapLookup] at h
  · intro p hp
    simp [New] at hp

theorem WF_bindingsOf (bus : EventBus) (hWF : WF bus) (t : String) :
    ∀ i ∈ bindingsOf bus t, i < bus.heap.length := by
  intro i hi
  unfold bindingsOf at hi
  cases hlk : mapLookup bus.handlers t with
  | none => rw [hlk] at hi; simp at hi
  | some l =>
      rw [hlk] at hi
      exact hWF.1 t l hlk i hi

theorem removeTake_subset (l : List Nat) (i : Nat) :
    ∀ x ∈ (removeShift l i l.length).take (l.length - 1), x ∈ l :=
  fun x hx => removeShift_subset l i l.length x (List.take_subset _ _ hx)

theorem Unsubscribe_eval_missing (bus : EventBus) (t : String) (cb : Callback)
    (hlk : mapLookup bus.handlers t = none) :
    Unsubscribe bus t cb = (bus, .unknownTopicError) := by
  simp only [Unsubscribe, hlk]

theorem Unsubscribe_eval_empty (bus : EventBus) (t : String) (cb : Callback)
    (hlk : mapLookup bus.handlers t = some []) :
    Unsubscribe bus t cb = (bus, .unknownTopicError) := by
  simp only [Unsubscribe, hlk, List.length_nil, Nat.lt_irrefl, if_false]

theorem Unsubscribe_eval_found (bus : EventBus) (t : String) (cb : Callback) (l : List Nat)
    (i : Nat) (hlk : mapLookup bus.handlers t = some l) (hl : l ≠ [])
    (hfi : findHandlerIdx bus.heap l cb = some i) :
    Unsubscribe bus t cb =
      ({ bus with
          handlers := mapSet bus.handlers t ((removeShift l i l.length).take (l.length - 1)) },
       .ok) := by
  have hl' : 0 < l.length := by
    cases l with
    | nil => exact absurd rfl hl
    | cons a l => simp
  simp only [Unsubscribe, hlk, hl', if_true, hfi]

theorem Unsubscribe_eval_notfound (bus : EventBus) (t : String) (cb : Callback) (l : List Nat)
    (hlk : mapLookup bus.handlers t = some l) (hl : l ≠ [])
    (hfi : findHandlerIdx bus.heap l cb = none) :
    Unsubscribe bus t cb = (bus, .ok) := by
  have hl' : 0 < l.length := by
    cases l with
    | nil => exact absurd rfl hl
    | cons a l => simp
  simp only [Unsubscribe, hlk, hl', if_true, hfi]

theorem Publish_eval_missing (bus : EventBus) (t : String) (args : List Arg)
    (hlk : mapLookup bus.handlers t = none) :
    Publish bus t args = (bus, [], none) := by
  simp only [Publish, hlk]

theorem Publish_eval_some (bus : EventBus) (t : String) (args : List Arg) (hs : List Nat)
    (hlk : mapLookup bus.handlers t = some hs) :
    Publish bus t args =
      ({ bus with
          heap := (publishLoop t args hs.length 0 ⟨bus.heap, hs, hs.length, bus.wg, bus.pending⟩).1.heap,
          handlers :=
            if (publishLoop t args hs.length 0 ⟨bus.heap, hs, hs.length, bus.wg, bus.pending⟩).1.len
                = hs.length then bus.handlers
            else mapSet bus.handlers t
              ((publishLoop t args hs.length 0
                  ⟨bus.heap, hs, hs.length, bus.wg, bus.pending⟩).1.arr.take
                (publishLoop t args hs.length 0
                  ⟨bus.heap, hs, hs.length, bus.wg, bus.pending⟩).1.len),
          wg := (publishLoop t args hs.length 0 ⟨bus.heap, hs, hs.length, bus.wg, bus.pending⟩).1.wg,
          pending :=
            (publishLoop t args hs.length 0 ⟨bus.heap, hs, hs.length, bus.wg, bus.pending⟩).1.pending },
       (publishLoop t args hs.length 0 ⟨bus.heap, hs, hs.length, bus.wg, bus.pending⟩).2.1,
       (publishLoop t args hs.length 0 ⟨bus.heap, hs, hs.length, bus.wg, bus.pending⟩).2.2) := by
  simp only [Publish, hlk]

/-- The four Subscribe variants preserve well-formedness, never shrink the
heap, never touch existing handlers' flags or latches, and do not change
any latch bit. -/
theorem subscribeWith_spec (bus : EventBus) (topic : String) (fnArg : HandlerArg)
    (once async transactional : Bool) (hWF : WF bus) :
    WF (subscribeWith bus topic fnArg once async transactional).1 ∧
    bus.heap.length ≤ (subscribeWith bus topic fnArg once async transactional).1.heap.length ∧
    (∀ j, j < bus.heap.length →
       flagsEq (getH (subscribeWith bus topic fnArg once async transactional).1.heap j)
         (getH bus.heap j)) ∧
    (∀ j, (getH bus.heap j).called = true →
       (getH (subscribeWith bus topic fnArg once async transactional).1.heap j).called = true) ∧
    (∀ i, cbit (subscribeWith bus topic fnArg once async transactional).1.heap i =
       cbit bus.heap i) := by
  cases fnArg with
  | nilArg =>
      exact ⟨hWF, le_refl _, fun j _ => flagsEq_refl _, fun j hj => hj, fun i => rfl⟩
  | nonFunc =>
      exact ⟨hWF, le_refl _, fun j _ => flagsEq_refl _, fun j hj => hj, fun i => rfl⟩
  | fn cb =>
      refine ⟨⟨?_, ?_⟩, ?_, ?_, ?_, ?_⟩
      · intro t' l' hlk' i hi
        show i < (bus.heap ++ [(⟨cb, once, async, transactional, false⟩ : eventHandler)]).length
        by_cases ht : t' = topic
        · subst ht
          rw [show (subscribeWith bus t' (.fn cb) once async transactional).1.handlers =
                mapSet bus.handlers t' (bindingsOf bus t' ++ [bus.heap.length]) from rfl,
              mapLookup_mapSet_self] at hlk'
          have := Option.some.inj hlk'
          subst this
          rcases List.mem_append.mp hi with hi2 | hi2
          · have := WF_bindingsOf bus hWF t' i hi2
            simp
            omega
          · have : i = bus.heap.length := by simpa using hi2
            simp [this]
        · rw [show (subscribeWith bus topic (.fn cb) once async transactional).1.handlers =
                mapSet bus.handlers topic (bindingsOf bus topic ++ [bus.heap.length]) from rfl,
              mapLookup_mapSet_ne _ _ _ _ ht] at hlk'
          have := hWF.1 t' l' hlk' i hi
          simp
          omega
      · intro p hp
        have := hWF.2 p hp
        show p.1 < (bus.heap ++ [(⟨cb, once, async, transactional, false⟩ : eventHandler)]).length
        simp
        omega
      · show bus.heap.length ≤ (bus.heap ++ [(⟨cb, once, async, transactional, false⟩ : eventHandler)]).length
        simp
      · intro j hj
        show flagsEq (getH (bus.heap ++ [(⟨cb, once, async, transactional, false⟩ : eventHandler)]) j)
          (getH bus.heap j)
        rw [getH_append_lt bus.heap _ j hj]
        exact flagsEq_refl _
      · intro j hj
        show (getH (bus.heap ++ [(⟨cb, once, async, transactional, false⟩ : eventHandler)]) j).called = true
        by_cases hjl : j < bus.heap.length
        · rw [getH_append_lt bus.heap _ j hjl]
          exact hj
        · rw [getH_oob bus.heap j (by omega)] at hj
          rw [default_called] at hj
          cases hj
      · intro i
        exact cbit_append bus.heap _ rfl i

/-- Each atomic step preserves well-formedness, never shrinks the heap,
never changes an existing handler's flags, never clears a latch, and admits
the once-latch counting bound. -/
theorem step_spec (bus : EventBus) (op : Op) (hWF : WF bus) :
    WF (step bus op).1 ∧
    bus.heap.length ≤ (step bus op).1.heap.length ∧
    (∀ j, j < bus.heap.length → flagsEq (getH (step bus op).1.heap j) (getH bus.heap j)) ∧
    (∀ j, (getH bus.heap j).called = true → (getH (step bus op).1.heap j).called = true) ∧
    (∀ i, (i < bus.heap.length → (getH bus.heap i).flagOnce = true) →
       countEvents (step bus op).2 i + cbit bus.heap i ≤ cbit (step bus op).1.heap i) := by
  have trivialStep : ∀ r : EventBus × List Event, r = (bus, []) →
      WF r.1 ∧ bus.heap.length ≤ r.1.heap.length ∧
      (∀ j, j < bus.heap.length → flagsEq (getH r.1.heap j) (getH bus.heap j)) ∧
      (∀ j, (getH bus.heap j).called = true → (getH r.1.heap j).called = true) ∧
      (∀ i, (i < bus.heap.length → (getH bus.heap i).flagOnce = true) →
         countEvents r.2 i + cbit bus.heap i ≤ cbit r.1.heap i) := by
    intro r hr
    subst hr
    exact ⟨hWF, le_refl _, fun j _ => flagsEq_refl _, fun j hj => hj,
           fun i _ => by simp [countEvents]⟩
  by_cases hcr : bus.crashed = true
  · exact trivialStep _ (by simp [step, hcr])
  · have hcr' : bus.crashed = false := by
      cases h : bus.crashed
      · rfl
      · exact absurd h hcr
    have subCase : ∀ (t : String) (a : HandlerArg) (o₁ o₂ o₃ : Bool),
        WF (subscribeWith bus t a o₁ o₂ o₃).1 ∧
        bus.heap.length ≤ (subscribeWith bus t a o₁ o₂ o₃).1.heap.length ∧
        (∀ j, j < bus.heap.length →
          flagsEq (getH (subscribeWith bus t a o₁ o₂ o₃).1.heap j) (getH bus.heap j)) ∧
        (∀ j, (getH bus.heap j).called = true →
          (getH (subscribeWith bus t a o₁ o₂ o₃).1.heap j).called = true) ∧
        (∀ i, (i < bus.heap.length → (getH bus.heap i).flagOnce = true) →
          countEvents [] i + cbit bus.heap i ≤ cbit (subscribeWith bus t a o₁ o₂ o₃).1.heap i) := by
      intro t a o₁ o₂ o₃
      obtain ⟨w1, w2, w3, w4, w5⟩ := subscribeWith_spec bus t a o₁ o₂ o₃ hWF
      refine ⟨w1, w2, w3, w4, fun i _ => ?_⟩
      rw [w5 i]
      simp [countEvents]
    cases op with
    | subscribe t a =>
        have hstep : step bus (.subscribe t a) =
            ((subscribeWith bus t a false false false).1, []) := by
          simp [step, hcr', Subscribe]
        rw [hstep]
        exact subCase t a false false false
    | subscribeOnce t a =>
        have hstep : step bus (.subscribeOnce t a) =
            ((subscribeWith bus t a true false false).1, []) := by
          simp [step, hcr', SubscribeOnce]
        rw [hstep]
        exact subCase t a true false false
    | subscribeAsync t a tr =>
        have hstep : step bus (.subscribeAsync t a tr) =
            ((subscribeWith bus t a false true tr).1, []) := by
          simp [step, hcr', SubscribeAsync]
        rw [hstep]
        exact subCase t a false true tr
    | subscribeOnceAsync t a =>
        have hstep : step bus (.subscribeOnceAsync t a) =
            ((subscribeWith bus t a true true false).1, []) := by
          simp [step, hcr', SubscribeOnceAsync]
        rw [hstep]
        exact subCase t a true true false
    | hasCallback t =>
        exact trivialStep _ (by simp [step, hcr'])
    | unsubscribe t cb =>
        have hstep : step bus (.unsubscribe t cb) = ((Unsubscribe bus t cb).1, []) := by
          simp [step, hcr']
        rw [hstep]
        cases hlk : mapLookup bus.handlers t with
        | none =>
            rw [Unsubscribe_eval_missing bus t cb hlk]
            exact ⟨hWF, le_refl _, fun j _ => flagsEq_refl _, fun j hj => hj,
                   fun i _ => by simp [countEvents]⟩
        | some l =>
            by_cases hl : l = []
            · subst hl
              rw [Unsubscribe_eval_empty bus t cb hlk]
              exact ⟨hWF, le_refl _, fun j _ => flagsEq_refl _, fun j hj => hj,
                     fun i _ => by simp [countEvents]⟩
            · cases hfi : findHandlerIdx bus.heap l cb with
              | none =>
                  rw [Unsubscribe_eval_notfound bus t cb l hlk hl hfi]
                  exact ⟨hWF, le_refl _, fun j _ => flagsEq_refl _, fun j hj => hj,
                         fun i _ => by simp [countEvents]⟩
              | some i0 =>
                  rw [Unsubscribe_eval_found bus t cb l i0 hlk hl hfi]
                  refine ⟨⟨?_, ?_⟩, le_refl _, fun j _ => flagsEq_refl _, fun j hj => hj,
                          fun i _ => by simp [countEvents]⟩
                  · intro t' l' hlk' j hj
                    have hlk2 : mapLookup (mapSet bus.handlers t
                        ((removeShift l i0 l.length).take (l.length - 1))) t' = some l' := hlk'
                    show j < bus.heap.length
                    by_cases ht : t' = t
                    · subst ht
                      rw [mapLookup_mapSet_self] at hlk2
                      have := Option.some.inj hlk2
                      subst this
                      exact hWF.1 t' l hlk j (removeTake_subset l i0 j hj)
                    · rw [mapLookup_mapSet_ne _ _ _ _ ht] at hlk2
                      exact hWF.1 t' l' hlk2 j hj
                  · intro p hp
                    exact hWF.2 p hp
    | publish t args =>
        have hstep : step bus (.publish t args) =
            ((Publish bus t args).1, (Publish bus t args).2.1) := by
          simp [step, hcr']
        rw [hstep]
        cases hlk : mapLookup bus.handlers t with
        | none =>
            rw [Publish_eval_missing bus t args hlk]
            exact ⟨hWF, le_refl _, fun j _ => flagsEq_refl _, fun j hj => hj,
                   fun i _ => by simp [countEvents]⟩
        | some hs =>
            rw [Publish_eval_some bus t args hs hlk]
            obtain ⟨c1, c2, c3, c4, c5, c6, c7, c8, c9⟩ :=
              publishLoop_spec t args hs.length 0 ⟨bus.heap, hs, hs.length, bus.wg, bus.pending⟩
                (fun j hj => hWF.1 t hs hlk j hj) (le_refl _) (by simp)
            refine ⟨⟨?_, ?_⟩, ?_, fun j _ => c2 j, c3, c9⟩
            · intro t' l' hlk' j hj
              show j < (publishLoop t args hs.length 0
                ⟨bus.heap, hs, hs.length, bus.wg, bus.pending⟩).1.heap.length
              rw [c1]
              show j < bus.heap.length
              have hlk2 : (if (publishLoop t args hs.length 0
                    ⟨bus.heap, hs, hs.length, bus.wg, bus.pending⟩).1.len = hs.length
                  then mapLookup bus.handlers t'
                  else mapLookup (mapSet bus.handlers t
                    ((publishLoop t args hs.length 0
                      ⟨bus.heap, hs, hs.length, bus.wg, bus.pending⟩).1.arr.take
                    (publishLoop t args hs.length 0
                      ⟨bus.heap, hs, hs.length, bus.wg, bus.pending⟩).1.len)) t') = some l' := by
                by_cases hcond : (publishLoop t args hs.length 0
                    ⟨bus.heap, hs, hs.length, bus.wg, bus.pending⟩).1.len = hs.length
                · rw [if_pos hcond]
                  have h0 : mapLookup (if (publishLoop t args hs.length 0
                      ⟨bus.heap, hs, hs.length, bus.wg, bus.pending⟩).1.len = hs.length
                      then bus.handlers
                      else mapSet bus.handlers t
                        ((publishLoop t args hs.length 0
                          ⟨bus.heap, hs, hs.length, bus.wg, bus.pending⟩).1.arr.take
                        (publishLoop t args hs.length 0
                          ⟨bus.heap, hs, hs.length, bus.wg, bus.pending⟩).1.len)) t' =
                      some l' := hlk'
                  rwa [if_pos hcond] at h0
                · rw [if_neg hcond]
                  have h0 : mapLookup (if (publishLoop t args hs.length 0
                      ⟨bus.heap, hs, hs.length, bus.wg, bus.pending⟩).1.len = hs.length
                      then bus.handlers
                      else mapSet bus.handlers t
                        ((publishLoop t args hs.length 0
                          ⟨bus.heap, hs, hs.length, bus.wg, bus.pending⟩).1.arr.take
                        (publishLoop t args hs.length 0
                          ⟨bus.heap, hs, hs.length, bus.wg, bus.pending⟩).1.len)) t' =
                      some l' := hlk'
                  rwa [if_neg hcond] at h0
              by_cases hcond : (publishLoop t args hs.length 0
                  ⟨bus.heap, hs, hs.length, bus.wg, bus.pending⟩).1.len = hs.length
              · rw [if_pos hcond] at hlk2
                exact hWF.1 t' l' hlk2 j hj
              · rw [if_neg hcond] at hlk2
                by_cases ht : t' = t
                · subst ht
                  rw [mapLookup_mapSet_self] at hlk2
                  have := Option.some.inj hlk2
                  subst this
                  have hjh : j ∈ (publishLoop t' args hs.length 0
                      ⟨bus.heap, hs, hs.length, bus.wg, bus.pending⟩).1.arr :=
                    List.take_subset _ _ hj
                  exact hWF.1 t' hs hlk j (c6 j hjh)
                · rw [mapLookup_mapSet_ne _ _ _ _ ht] at hlk2
                  exact hWF.1 t' l' hlk2 j hj
            · intro p hp
              show p.1 < (publishLoop t args hs.length 0
                ⟨bus.heap, hs, hs.length, bus.wg, bus.pending⟩).1.heap.length
              rw [c1]
              show p.1 < bus.heap.length
              rcases c7 p hp with hp2 | hp2
              · exact hWF.2 p hp2
              · exact hWF.1 t hs hlk p.1 hp2
            · show bus.heap.length ≤ (publishLoop t args hs.length 0
                ⟨bus.heap, hs, hs.length, bus.wg, bus.pending⟩).1.heap.length
              rw [c1]
    | runTaskAt n =>
        cases htk : taskAt bus.pending n with
        | none =>
            exact trivialStep _ (by simp [step, hcr', htk])
        | some task =>
            have hstep : step bus (.runTaskAt n) =
                runTask { bus with pending := eraseTask bus.pending n }
                  task.1 task.2.1 task.2.2 := by
              simp [step, hcr', htk]
            rw [hstep]
            have hhid : task.1 < bus.heap.length :=
              hWF.2 task (taskAt_mem bus.pending n task htk)
            obtain ⟨d1, d2, d3, d4, d5, d6, d7⟩ :=
              doPublish_spec bus.heap (bindingsOf bus task.2.1) (bindingsOf bus task.2.1).length
                task.1 task.2.2 false (le_refl _)
            refine ⟨⟨?_, ?_⟩, ?_, fun j _ => d2 j, d3, fun i hio => d7 i hhid hio⟩
            · intro t' l' hlk' j hj
              show j < (doPublish bus.heap (bindingsOf bus task.2.1)
                (bindingsOf bus task.2.1).length task.1 task.2.2 false).heap.length
              rw [d1]
              have hlk2 : mapLookup (if (doPublish bus.heap (bindingsOf bus task.2.1)
                  (bindingsOf bus task.2.1).length task.1 task.2.2 false).len =
                    (bindingsOf bus task.2.1).length
                  then bus.handlers
                  else mapSet bus.handlers task.2.1
                    ((doPublish bus.heap (bindingsOf bus task.2.1)
                      (bindingsOf bus task.2.1).length task.1 task.2.2 false).arr.take
                    (doPublish bus.heap (bindingsOf bus task.2.1)
                      (bindingsOf bus task.2.1).length task.1 task.2.2 false).len)) t' =
                  some l' := hlk'
              by_cases hcond : (doPublish bus.heap (bindingsOf bus task.2.1)
                  (bindingsOf bus task.2.1).length task.1 task.2.2 false).len =
                  (bindingsOf bus task.2.1).length
              · rw [if_pos hcond] at hlk2
                exact hWF.1 t' l' hlk2 j hj
              · rw [if_neg hcond] at hlk2
                by_cases ht : t' = task.2.1
                · subst ht
                  rw [mapLookup_mapSet_self] at hlk2
                  have := Option.some.inj hlk2
                  subst this
                  exact WF_bindingsOf bus hWF task.2.1 j (d6 j (List.take_subset _ _ hj))
                · rw [mapLookup_mapSet_ne _ _ _ _ ht] at hlk2
                  exact hWF.1 t' l' hlk2 j hj
            · intro p hp
              show p.1 < (doPublish bus.heap (bindingsOf bus task.2.1)
                (bindingsOf bus task.2.1).length task.1 task.2.2 false).heap.length
              rw [d1]
              exact hWF.2 p (eraseTask_subset bus.pending n p hp)
            · show bus.heap.length ≤ (doPublish bus.heap (bindingsOf bus task.2.1)
                (bindingsOf bus task.2.1).length task.1 task.2.2 false).heap.length
              rw [d1]

/-- Run-level invariant: well-formedness is preserved, flags of existing
handlers never change, and the once-latch counting bound telescopes over a
whole run. -/
theorem runList_spec : ∀ (ops : List Op) (bus : EventBus), WF bus →
    WF (runList bus ops).1 ∧
    bus.heap.length ≤ (runList bus ops).1.heap.length ∧
    (∀ j, j < bus.heap.length →
       flagsEq (getH (runList bus ops).1.heap j) (getH bus.heap j)) ∧
    (∀ i, (getH (runList bus ops).1.heap i).flagOnce = true →
       countEvents (runList bus ops).2 i + cbit bus.heap i ≤ cbit (runList bus ops).1.heap i) := by
  intro ops
  induction ops with
  | nil =>
      intro bus hWF
      exact ⟨hWF, le_refl _, fun j _ => flagsEq_refl _,
             fun i _ => by simp [runList, countEvents]⟩
  | cons op ops ih =>
      intro bus hWF
      obtain ⟨s1, s2, s3, s4, s5⟩ := step_spec bus op hWF
      obtain ⟨i1, i2, i3, i4⟩ := ih (step bus op).1 s1
      have hrun : runList bus (op :: ops) =
          ((runList (step bus op).1 ops).1, (step bus op).2 ++ (runList (step bus op).1 ops).2) := by
        simp only [runList]
      rw [hrun]
      refine ⟨i1, le_trans s2 i2, ?_, ?_⟩
      · intro j hj
        exact flagsEq_trans (i3 j (by omega)) (s3 j hj)
      · intro i hOnce
        have hio : i < bus.heap.length → (getH bus.heap i).flagOnce = true := by
          intro hi
          have f1 := i3 i (by omega)
          have f2 := s3 i hi
          rw [← f2.2.1, ← f1.2.1]
          exact hOnce
        have key1 := s5 i hio
        have key2 := i4 i hOnce
        show countEvents ((step bus op).2 ++ (runList (step bus op).1 ops).2) i +
          cbit bus.heap i ≤ cbit (runList (step bus op).1 ops).1.heap i
        rw [countEvents_append]
        omega

/-- Over any run from the fresh bus, the callback body of a once binding
executes at most once in total. -/
theorem once_body_at_most_once (ops : List Op) (i : Nat)
    (h : (getH (runList New ops).1.heap i).flagOnce = true) :
    countEvents (runList New ops).2 i ≤ 1 := by
  obtain ⟨_, _, _, c4⟩ := runList_spec ops New WF_New
  have h1 := c4 i h
  have h2 := cbit_le_one (runList New ops).1.heap i
  have h0 : cbit New.heap i = 0 := rfl
  omega

/-- The wait-group counter grows during the publish loop exactly by the
number of goroutines spawned. -/
theorem publishLoop_wg (topic : String) (args : List Arg) :
    ∀ (fuel k : Nat) (s : PubState),
    (publishLoop topic args fuel k s).1.wg + s.pending.length =
      s.wg + (publishLoop topic args fuel k s).1.pending.length := by
  intro fuel
  induction fuel with
  | zero =>
      intro k s
      simp [publishLoop]
  | succ fuel ih =>
      intro k s
      cases hasync : (getH s.heap (nthD s.arr k)).async with
      | true =>
          rw [publishLoop_async_eq topic args fuel k s hasync]
          have := ih (k + 1)
            { s with wg := s.wg + 1, pending := s.pending ++ [(nthD s.arr k, topic, args)] }
          simp only [List.length_append, List.length_cons, List.length_nil] at this
          omega
      | false =>
          cases hpan : (doPublish s.heap s.arr s.len (nthD s.arr k) args true).panics with
          | some p =>
              rw [publishLoop_sync_panic_eq topic args fuel k s p hasync hpan]
          | none =>
              rw [publishLoop_sync_ok_eq topic args fuel k s hasync hpan]
              exact ih (k + 1) _

/-- Every step keeps the wait-group counter equal to the number of
scheduled-but-unfinished asynchronous invocations. -/
theorem step_wg (bus : EventBus) (op : Op) (h : bus.wg = bus.pending.length) :
    (step bus op).1.wg = (step bus op).1.pending.length := by
  by_cases hcr : bus.crashed = true
  · rw [show step bus op = (bus, []) from by simp [step, hcr]]
    exact h
  · have hcr' : bus.crashed = false := by
      cases hc : bus.crashed
      · rfl
      · exact absurd hc hcr
    cases op with
    | subscribe t a =>
        rw [show step bus (.subscribe t a) = ((subscribeWith bus t a false false false).1, [])
          from by simp [step, hcr', Subscribe]]
        cases a <;> exact h
    | subscribeOnce t a =>
        rw [show step bus (.subscribeOnce t a) = ((subscribeWith bus t a true false false).1, [])
          from by simp [step, hcr', SubscribeOnce]]
        cases a <;> exact h
    | subscribeAsync t a tr =>
        rw [show step bus (.subscribeAsync t a tr) = ((subscribeWith bus t a false true tr).1, [])
          from by simp [step, hcr', SubscribeAsync]]
        cases a <;> exact h
    | subscribeOnceAsync t a =>
        rw [show step bus (.subscribeOnceAsync t a) = ((subscribeWith bus t a true true false).1, [])
          from by simp [step, hcr', SubscribeOnceAsync]]
        cases a <;> exact h
    | hasCallback t =>
        rw [show step bus (.hasCallback t) = (bus, []) from by simp [step, hcr']]
        exact h
    | unsubscribe t cb =>
        rw [show step bus (.unsubscribe t cb) = ((Unsubscribe bus t cb).1, [])
          from by simp [step, hcr']]
        cases hlk : mapLookup bus.handlers t with
        | none =>
            rw [Unsubscribe_eval_missing bus t cb hlk]
            exact h
        | some l =>
            by_cases hl : l = []
            · subst hl
              rw [Unsubscribe_eval_empty bus t cb hlk]
              exact h
            · cases hfi : findHandlerIdx bus.heap l cb with
              | none =>
                  rw [Unsubscribe_eval_notfound bus t cb l hlk hl hfi]
                  exact h
              | some i0 =>
                  rw [Unsubscribe_eval_found bus t cb l i0 hlk hl hfi]
                  exact h
    | publish t args =>
        rw [show step bus (.publish t args) = ((Publish bus t args).1, (Publish bus t args).2.1)
          from by simp [step, hcr']]
        cases hlk : mapLookup bus.handlers t with
        | none =>
            rw [Publish_eval_missing bus t args hlk]
            exact h
        | some hs =>
            rw [Publish_eval_some bus t args hs hlk]
            have hwg := publishLoop_wg t args hs.length 0 ⟨bus.heap, hs, hs.length, bus.wg, bus.pending⟩
            have hb1 : (⟨bus.heap, hs, hs.length, bus.wg, bus.pending⟩ : PubState).wg = bus.wg := rfl
            have hb2 : (⟨bus.heap, hs, hs.length, bus.wg, bus.pending⟩ : PubState).pending.length
                = bus.pending.length := rfl
            rw [hb1, hb2] at hwg
            show (publishLoop t args hs.length 0
                ⟨bus.heap, hs, hs.length, bus.wg, bus.pending⟩).1.wg =
              (publishLoop t args hs.length 0
                ⟨bus.heap, hs, hs.length, bus.wg, bus.pending⟩).1.pending.length
            omega
    | runTaskAt n =>
        cases htk : taskAt bus.pending n with
        | none =>
            rw [show step bus (.runTaskAt n) = (bus, []) from by simp [step, hcr', htk]]
            exact h
        | some task =>
            rw [show step bus (.runTaskAt n) =
                runTask { bus with pending := eraseTask bus.pending n } task.1 task.2.1 task.2.2
              from by simp [step, hcr', htk]]
            have hlen := length_eraseTask bus.pending n task htk
            have hlt := taskAt_lt bus.pending n task htk
            show bus.wg - 1 = (eraseTask bus.pending n).length
            omega

/-- Running a scheduled goroutine decrements the wait-group counter by one,
whatever the outcome of the reflect call. -/
theorem step_runTask_decrements (bus : EventBus) (n : Nat) (task : Nat × String × List Arg)
    (hcr : bus.crashed = false) (htk : taskAt bus.pending n = some task) :
    (step bus (.runTaskAt n)).1.wg = bus.wg - 1 := by
  rw [show step bus (.runTaskAt n) =
      runTask { bus with pending := eraseTask bus.pending n } task.1 task.2.1 task.2.2
    from by simp [step, hcr, htk]]
  rfl

/-- A handler without the once flag reaches the reflect call, so the
outcome of `doPublish` is the outcome of the call. -/
theorem doPublish_panics_nononce (heap : List eventHandler) (arr : List Nat) (len hid : Nat)
    (args : List Arg) (locked : Bool) (honce : (getH heap hid).flagOnce = false) :
    (doPublish heap arr len hid args locked).panics =
      callOutcome (getH heap hid).callBack args := by
  cases hco : callOutcome (getH heap hid).callBack args with
  | none => simp [doPublish, honce, hco]
  | some p => simp [doPublish, honce, hco]

/-- A goroutine whose reflect call panics terminates the program: the model
sets `crashed` after the deferred `wg.Done()` has run. -/
theorem step_runTask_crashes (bus : EventBus) (n : Nat) (task : Nat × String × List Arg)
    (p : PanicKind) (hcr : bus.crashed = false) (htk : taskAt bus.pending n = some task)
    (honce : (getH bus.heap task.1).flagOnce = false)
    (hco : callOutcome (getH bus.heap task.1).callBack task.2.2 = some p) :
    (step bus (.runTaskAt n)).1.crashed = true := by
  rw [show step bus (.runTaskAt n) =
      runTask { bus with pending := eraseTask bus.pending n } task.1 task.2.1 task.2.2
    from by simp [step, hcr, htk]]
  show (bus.crashed || (doPublish bus.heap (bindingsOf bus task.2.1)
    (bindingsOf bus task.2.1).length task.1 task.2.2 false).panics.isSome) = true
  rw [doPublish_panics_nononce _ _ _ _ _ _ honce, hco, hcr]
  rfl

theorem drop_succ_of_drop_cons (l : List Nat) (k x : Nat) (r : List Nat)
    (h : l.drop k = x :: r) : l.drop (k + 1) = r := by
  have h2 := List.drop_drop 1 k l
  rw [h] at h2
  simp only [List.drop_one, List.tail_cons] at h2
  exact h2.symm

theorem callOutcome_zeroValue (cb : Callback) (args : List Arg)
    (har : cb.arity = args.length) (hn : args.contains none = true) :
    callOutcome cb args = some .zeroValueArg := by
  have hn2 : none ∈ args := by simpa using hn
  simp [callOutcome, har, hn2]

theorem doPublish_call_panics (heap : List eventHandler) (arr : List Nat) (len hid : Nat)
    (args : List Arg) (locked : Bool) (p : PanicKind)
    (hcalled : (getH heap hid).called = false)
    (hco : callOutcome (getH heap hid).callBack args = some p) :
    (doPublish heap arr len hid args locked).panics = some p ∧
    (doPublish heap arr len hid args locked).events = [] := by
  have hguard : ((getH heap hid).flagOnce && (getH heap hid).called) = false := by
    simp [hcalled]
  constructor <;> simp [doPublish, hguard, hco]

/-- If the snapshot from position `k` on starts with asynchronous handlers
followed by a fresh synchronous handler whose arity matches but whose
arguments contain a nil, the loop schedules the prefix, then the reflect
call of the first synchronous handler panics with the zero-Value panic,
having executed no callback body inline. -/
theorem publishLoop_firstSync_panics (topic : String) (args : List Arg) :
    ∀ (pre : List Nat) (fuel k : Nat) (s : PubState) (i0 : Nat) (tail : List Nat),
    s.arr.drop k = pre ++ i0 :: tail →
    (∀ j ∈ pre, (getH s.heap j).async = true) →
    (getH s.heap i0).async = false →
    (getH s.heap i0).called = false →
    (getH s.heap i0).callBack.arity = args.length →
    args.contains none = true →
    pre.length < fuel →
    (publishLoop topic args fuel k s).2.2 = some PanicKind.zeroValueArg ∧
    (publishLoop topic args fuel k s).2.1 = [] := by
  intro pre
  induction pre with
  | nil =>
      intro fuel k s i0 tail hdrop hpre hasync hcalled har hn hfuel
      cases fuel with
      | zero => omega
      | succ f =>
          have hk : nthD s.arr k = i0 := nthD_of_drop k s.arr i0 tail (by simpa using hdrop)
          have hco : callOutcome (getH s.heap (nthD s.arr k)).callBack args =
              some .zeroValueArg := by
            rw [hk]
            exact callOutcome_zeroValue _ args har hn
          obtain ⟨hp1, hp2⟩ := doPublish_call_panics s.heap s.arr s.len (nthD s.arr k) args true
            .zeroValueArg (by rw [hk]; exact hcalled) hco
          rw [publishLoop_sync_panic_eq topic args f k s .zeroValueArg
            (by rw [hk]; exact hasync) hp1]
          exact ⟨rfl, hp2⟩
  | cons p0 pre ih =>
      intro fuel k s i0 tail hdrop hpre hasync hcalled har hn hfuel
      cases fuel with
      | zero => simp at hfuel
      | succ f =>
          have hk : nthD s.arr k = p0 := nthD_of_drop k s.arr p0 (pre ++ i0 :: tail) (by simpa using hdrop)
          have hp0 : (getH s.heap (nthD s.arr k)).async = true := by
            rw [hk]
            exact hpre p0 (by simp)
          rw [publishLoop_async_eq topic args f k s hp0]
          exact ih f (k + 1)
            { s with wg := s.wg + 1, pending := s.pending ++ [(nthD s.arr k, topic, args)] }
            i0 tail (drop_succ_of_drop_cons s.arr k p0 (pre ++ i0 :: tail) (by simpa using hdrop))
            (fun j hj => hpre j (by simp [hj])) hasync hcalled har hn
            (by simp only [List.length_cons] at hfuel; omega)

/-- A synchronous once binding that is its topic's only binding: `Publish`
fires it once, removes it (necessarily itself, being the only candidate for
the callback match), and leaves the topic present with an empty slice. -/
theorem publish_only_once_binding (bus : EventBus) (t : String) (args : List Arg) (i : Nat)
    (hlk : mapLookup bus.handlers t = some [i])
    (honce : (getH bus.heap i).flagOnce = true)
    (hasync : (getH bus.heap i).async = false)
    (hcalled : (getH bus.heap i).called = false)
    (hco : callOutcome (getH bus.heap i).callBack args = none) :
    (Publish bus t args).2.1 = [⟨i, (getH bus.heap i).callBack, args, true⟩] ∧
    mapLookup (Publish bus t args).1.handlers t = some [] ∧
    HasCallback (Publish bus t args).1 t = false := by
  have hguard : ((getH bus.heap i).flagOnce && (getH bus.heap i).called) = false := by
    simp [hcalled]
  have hdp : doPublish bus.heap [i] 1 i args true =
      ⟨setCalled bus.heap i, [i], 0, [⟨i, (getH bus.heap i).callBack, args, true⟩], none⟩ := by
    simp [doPublish, honce, hcalled, hguard, hco, findHandlerIdx, removeShift]
  have hloop : publishLoop t args 1 0 ⟨bus.heap, [i], 1, bus.wg, bus.pending⟩ =
      (⟨setCalled bus.heap i, [i], 0, bus.wg, bus.pending⟩,
       [⟨i, (getH bus.heap i).callBack, args, true⟩], none) := by
    have hnth : nthD (⟨bus.heap, [i], 1, bus.wg, bus.pending⟩ : PubState).arr 0 = i := rfl
    rw [publishLoop_sync_ok_eq t args 0 0 ⟨bus.heap, [i], 1, bus.wg, bus.pending⟩
      (by rw [hnth]; exact hasync) (by rw [hnth, show (⟨bus.heap, [i], 1, bus.wg, bus.pending⟩ :
        PubState).heap = bus.heap from rfl]; rw [show (⟨bus.heap, [i], 1, bus.wg,
        bus.pending⟩ : PubState).arr = [i] from rfl, show (⟨bus.heap, [i], 1, bus.wg,
        bus.pending⟩ : PubState).len = 1 from rfl, hdp])]
    rw [hnth, show (⟨bus.heap, [i], 1, bus.wg, bus.pending⟩ : PubState).heap = bus.heap from rfl,
        show (⟨bus.heap, [i], 1, bus.wg, bus.pending⟩ : PubState).arr = [i] from rfl,
        show (⟨bus.heap, [i], 1, bus.wg, bus.pending⟩ : PubState).len = 1 from rfl, hdp]
    simp [publishLoop]
  have hpub := Publish_eval_some bus t args [i] hlk
  rw [show ([i] : List Nat).length = 1 from rfl] at hpub
  rw [hloop] at hpub
  rw [hpub]
  refine ⟨by simp, ?_, ?_⟩
  · show mapLookup (if (0 : Nat) = 1 then bus.handlers
      else mapSet bus.handlers t (([i] : List Nat).take 0)) t = some []
    rw [if_neg (by omega)]
    exact mapLookup_mapSet_self bus.handlers t _
  · show HasCallback _ t = false
    unfold HasCallback
    show (match mapLookup (if (0 : Nat) = 1 then bus.handlers
      else mapSet bus.handlers t (([i] : List Nat).take 0)) t with
      | some l => decide (0 < l.length)
      | none => false) = false
    rw [if_neg (by omega), mapLookup_mapSet_self bus.handlers t _]
    rfl

theorem findHandlerIdx_isSome_of_mem (heap : List eventHandler) (cb : Callback) :
    ∀ (l : List Nat) (hid : Nat), hid ∈ l → (getH heap hid).callBack = cb →
    ∃ i, findHandlerIdx heap l cb = some i := by
  intro l
  induction l with
  | nil => intro hid h; simp at h
  | cons a rest ih =>
      intro hid h hcb
      by_cases hc : (getH heap a).callBack = cb
      · exact ⟨0, by simp [findHandlerIdx, hc]⟩
      · rcases List.mem_cons.mp h with rfl | h2
        · exact absurd hcb hc
        · obtain ⟨i, hi⟩ := ih hid h2 hcb
          exact ⟨i + 1, by simp [findHandlerIdx, hc, hi]⟩

theorem findHandlerIdx_of_first_at (heap : List eventHandler) (cb : Callback) :
    ∀ (l : List Nat) (k : Nat), k < l.length →
    (getH heap (nthD l k)).callBack = cb →
    (∀ j, j < k → (getH heap (nthD l j)).callBack ≠ cb) →
    findHandlerIdx heap l cb = some k := by
  intro l
  induction l with
  | nil => intro k hk; simp at hk
  | cons a rest ih =>
      intro k hk hmatch hfirst
      cases k with
      | zero =>
          have ha : (getH heap a).callBack = cb := hmatch
          simp [findHandlerIdx, ha]
      | succ m =>
          have h0 : (getH heap a).callBack ≠ cb := hfirst 0 (Nat.succ_pos m)
          have hrest := ih m (by simpa using hk) hmatch (fun j hj => hfirst (j + 1) (by omega))
          simp [findHandlerIdx, h0, hrest]

theorem doPublish_arr_once_found (heap : List eventHandler) (arr : List Nat) (len hid : Nat)
    (args : List Arg) (locked : Bool) (i : Nat)
    (honce : (getH heap hid).flagOnce = true)
    (hfi : findHandlerIdx heap (arr.take len) (getH heap hid).callBack = some i) :
    (doPublish heap arr len hid args locked).arr = removeShift arr i len ∧
    (doPublish heap arr len hid args locked).len = len - 1 := by
  constructor <;>
    · simp only [doPublish, honce, hfi, if_true]
      split
      · rfl
      · split <;> rfl

theorem doPublish_arr_once_notfound (heap : List eventHandler) (arr : List Nat) (len hid : Nat)
    (args : List Arg) (locked : Bool)
    (honce : (getH heap hid).flagOnce = true)
    (hfi : findHandlerIdx heap (arr.take len) (getH heap hid).callBack = none) :
    (doPublish heap arr len hid args locked).arr = arr ∧
    (doPublish heap arr len hid args locked).len = len := by
  constructor <;>
    · simp only [doPublish, honce, hfi, if_true]
      split
      · rfl
      · split <;> rfl

theorem removeShift_take_general (arr : List Nat) (i len : Nat) (hi : i < len)
    (hlen : len ≤ arr.length) :
    (removeShift arr i len).take (len - 1) =
      (arr.take len).take i ++ (arr.take len).drop (i + 1) := by
  have hAB : (arr.take i ++ (arr.drop (i + 1)).take (len - 1 - i)).length = len - 1 := by
    simp only [List.length_append, List.length_take, List.length_drop]
    omega
  calc (removeShift arr i len).take (len - 1)
      = ((arr.take i ++ (arr.drop (i + 1)).take (len - 1 - i)) ++
          arr.drop (len - 1)).take (len - 1) := by
        simp only [removeShift, List.append_assoc]
    _ = ((arr.take i ++ (arr.drop (i + 1)).take (len - 1 - i)) ++
          arr.drop (len - 1)).take
          (arr.take i ++ (arr.drop (i + 1)).take (len - 1 - i)).length := by rw [hAB]
    _ = arr.take i ++ (arr.drop (i + 1)).take (len - 1 - i) := List.take_left _ _
    _ = (arr.take len).take i ++ (arr.take len).drop (i + 1) := by
        rw [List.take_take, Nat.min_eq_left (le_of_lt hi), List.drop_take]
        have he : len - (i + 1) = len - 1 - i := by omega
        rw [he]

/-- General removal clause of the per-binding invocation logic shared by
the synchronous and asynchronous paths (`doPublish`, with the topic's slice
given as backing array `arr` and logical length `len`, so the logical list
is `arr.take len`): processing a once binding always performs the removal
(before the latch check, hence in particular whenever the binding fires);
if the binding occurs in the list a callback match exists; the removed
index is the first whose callback value equals the firing binding's — the
binding's own position exactly when no earlier entry shares its callback —
and the list afterwards is the original with that entry erased; with no
match the list is unchanged. -/
theorem doPublish_once_removes_first (heap : List eventHandler) (arr : List Nat)
    (len hid : Nat) (args : List Arg) (locked : Bool)
    (hlen : len ≤ arr.length) (honce : (getH heap hid).flagOnce = true) :
    (hid ∈ arr.take len →
      ∃ i, findHandlerIdx heap (arr.take len) (getH heap hid).callBack = some i) ∧
    (∀ i, findHandlerIdx heap (arr.take len) (getH heap hid).callBack = some i →
      i < (arr.take len).length ∧
      (getH heap (nthD (arr.take len) i)).callBack = (getH heap hid).callBack ∧
      (∀ j, j < i →
        (getH heap (nthD (arr.take len) j)).callBack ≠ (getH heap hid).callBack) ∧
      (doPublish heap arr len hid args locked).arr.take
          (doPublish heap arr len hid args locked).len =
        (arr.take len).take i ++ (arr.take len).drop (i + 1)) ∧
    (∀ k, k < (arr.take len).length → nthD (arr.take len) k = hid →
      (∀ j, j < k →
        (getH heap (nthD (arr.take len) j)).callBack ≠ (getH heap hid).callBack) →
      findHandlerIdx heap (arr.take len) (getH heap hid).callBack = some k) ∧
    (findHandlerIdx heap (arr.take len) (getH heap hid).callBack = none →
      (doPublish heap arr len hid args locked).arr.take
          (doPublish heap arr len hid args locked).len = arr.take len) := by
  refine ⟨?_, ?_, ?_, ?_⟩
  · intro hmem
    exact findHandlerIdx_isSome_of_mem heap (getH heap hid).callBack (arr.take len) hid hmem rfl
  · intro i hfi
    obtain ⟨e1, e2⟩ := doPublish_arr_once_found heap arr len hid args locked i honce hfi
    have hi : i < (arr.take len).length :=
      findHandlerIdx_lt heap (arr.take len) (getH heap hid).callBack i hfi
    have hi2 : i < len := by
      have hl : (arr.take len).length = len := by
        simp [List.length_take]
        omega
      omega
    refine ⟨hi, findHandlerIdx_match heap (arr.take len) (getH heap hid).callBack i hfi,
            fun j hj => findHandlerIdx_first heap (arr.take len) (getH heap hid).callBack
              i hfi j hj, ?_⟩
    rw [e1, e2]
    exact removeShift_take_general arr i len hi2 hlen
  · intro k hk hnth hfirst
    exact findHandlerIdx_of_first_at heap (getH heap hid).callBack (arr.take len) k hk
      (by rw [hnth]) hfirst
  · intro hfi
    obtain ⟨e1, e2⟩ := doPublish_arr_once_notfound heap arr len hid args locked honce hfi
    rw [e1, e2]

/-- The asynchronous path at goroutine level: running a scheduled goroutine
of a once binding replaces the topic's current binding list by that list
with its first callback-equal entry removed (the map is untouched when no
entry matches, i.e. when the binding was already removed). -/
theorem runTask_once_removes_first (bus : EventBus) (hid : Nat) (t : String) (args : List Arg)
    (honce : (getH bus.heap hid).flagOnce = true) :
    (∀ i, findHandlerIdx bus.heap (bindingsOf bus t) (getH bus.heap hid).callBack = some i →
      bindingsOf (runTask bus hid t args).1 t =
        (bindingsOf bus t).take i ++ (bindingsOf bus t).drop (i + 1)) ∧
    (findHandlerIdx bus.heap (bindingsOf bus t) (getH bus.heap hid).callBack = none →
      (runTask bus hid t args).1.handlers = bus.handlers) := by
  constructor
  · intro i hfi
    have hfi2 : findHandlerIdx bus.heap ((bindingsOf bus t).take (bindingsOf bus t).length)
        (getH bus.heap hid).callBack = some i := by
      rw [List.take_length]
      exact hfi
    obtain ⟨e1, e2⟩ := doPublish_arr_once_found bus.heap (bindingsOf bus t)
      (bindingsOf bus t).length hid args false i honce hfi2
    have hi : i < (bindingsOf bus t).length :=
      findHandlerIdx_lt bus.heap (bindingsOf bus t) (getH bus.heap hid).callBack i hfi
    have hne : ¬((doPublish bus.heap (bindingsOf bus t) (bindingsOf bus t).length
        hid args false).len = (bindingsOf bus t).length) := by
      rw [e2]
      omega
    show (mapLookup (if (doPublish bus.heap (bindingsOf bus t) (bindingsOf bus t).length
        hid args false).len = (bindingsOf bus t).length then bus.handlers
      else mapSet bus.handlers t
        ((doPublish bus.heap (bindingsOf bus t) (bindingsOf bus t).length
          hid args false).arr.take
        (doPublish bus.heap (bindingsOf bus t) (bindingsOf bus t).length
          hid args false).len)) t).getD [] = _
    rw [if_neg hne, mapLookup_mapSet_self]
    rw [e1, e2]
    simp only [Option.getD_some]
    exact removeShift_take (bindingsOf bus t) i hi
  · intro hfi
    have hfi2 : findHandlerIdx bus.heap ((bindingsOf bus t).take (bindingsOf bus t).length)
        (getH bus.heap hid).callBack = none := by
      rw [List.take_length]
      exact hfi
    obtain ⟨e1, e2⟩ := doPublish_arr_once_notfound bus.heap (bindingsOf bus t)
      (bindingsOf bus t).length hid args false honce hfi2
    show (if (doPublish bus.heap (bindingsOf bus t) (bindingsOf bus t).length
        hid args false).len = (bindingsOf bus t).length then bus.handlers
      else mapSet bus.handlers t
        ((doPublish bus.heap (bindingsOf bus t) (bindingsOf bus t).length
          hid args false).arr.take
        (doPublish bus.heap (bindingsOf bus t) (bindingsOf bus t).length
          hid args false).len)) = bus.handlers
    rw [if_pos (by rw [e2])]

/-- An asynchronous once binding that is its topic's only binding: running
its goroutine fires it once, removes it (necessarily itself, being the only
candidate for the callback match), and leaves the topic present with an
empty slice, so `HasCallback` is false afterwards. -/
theorem runTask_only_once_binding (bus : EventBus) (t : String) (args : List Arg) (i : Nat)
    (hlk : mapLookup bus.handlers t = some [i])
    (honce : (getH bus.heap i).flagOnce = true)
    (hcalled : (getH bus.heap i).called = false)
    (hco : callOutcome (getH bus.heap i).callBack args = none) :
    (runTask bus i t args).2 = [⟨i, (getH bus.heap i).callBack, args, false⟩] ∧
    mapLookup (runTask bus i t args).1.handlers t = some [] ∧
    HasCallback (runTask bus i t args).1 t = false := by
  have hguard : ((getH bus.heap i).flagOnce && (getH bus.heap i).called) = false := by
    simp [hcalled]
  have hdp : doPublish bus.heap [i] 1 i args false =
      ⟨setCalled bus.heap i, [i], 0, [⟨i, (getH bus.heap i).callBack, args, false⟩], none⟩ := by
    simp [doPublish, honce, hcalled, hguard, hco, findHandlerIdx, removeShift]
  have hbind : bindingsOf bus t = [i] := by
    rw [bindingsOf, hlk]
    rfl
  refine ⟨?_, ?_, ?_⟩
  · show (doPublish bus.heap (bindingsOf bus t) (bindingsOf bus t).length i args false).events = _
    rw [hbind]
    show (doPublish bus.heap [i] 1 i args false).events = _
    rw [hdp]
  · show (mapLookup (if (doPublish bus.heap (bindingsOf bus t) (bindingsOf bus t).length
        i args false).len = (bindingsOf bus t).length then bus.handlers
      else mapSet bus.handlers t
        ((doPublish bus.heap (bindingsOf bus t) (bindingsOf bus t).length i args false).arr.take
        (doPublish bus.heap (bindingsOf bus t) (bindingsOf bus t).length i args false).len)) t)
      = some []
    rw [hbind]
    show (mapLookup (if (doPublish bus.heap [i] 1 i args false).len = (1 : Nat)
      then bus.handlers
      else mapSet bus.handlers t ((doPublish bus.heap [i] 1 i args false).arr.take
        (doPublish bus.heap [i] 1 i args false).len)) t) = some []
    rw [hdp]
    show (mapLookup (if (0 : Nat) = 1 then bus.handlers
      else mapSet bus.handlers t (([i] : List Nat).take 0)) t) = some []
    rw [if_neg (by omega)]
    exact mapLookup_mapSet_self bus.handlers t _
  · unfold HasCallback
    show (match mapLookup (if (doPublish bus.heap (bindingsOf bus t)
        (bindingsOf bus t).length i args false).len = (bindingsOf bus t).length
        then bus.handlers
        else mapSet bus.handlers t ((doPublish bus.heap (bindingsOf bus t)
          (bindingsOf bus t).length i args false).arr.take
        (doPublish bus.heap (bindingsOf bus t) (bindingsOf bus t).length
          i args false).len)) t with
      | some l => decide (0 < l.length)
      | none => false) = false
    rw [hbind]
    show (match mapLookup (if (doPublish bus.heap [i] 1 i args false).len = (1 : Nat)
        then bus.handlers
        else mapSet bus.handlers t ((doPublish bus.heap [i] 1 i args false).arr.take
          (doPublish bus.heap [i] 1 i args false).len)) t with
      | some l => decide (0 < l.length)
      | none => false) = false
    rw [hdp]
    show (match mapLookup (if (0 : Nat) = 1 then bus.handlers
        else mapSet bus.handlers t (([i] : List Nat).take 0)) t with
      | some l => decide (0 < l.length)
      | none => false) = false
    rw [if_neg (by omega), mapLookup_mapSet_self bus.handlers t _]
    rfl

/-! Claim theorems. -/

/-- Claim C1, counterexample: after `Subscribe("t", f)` then
`SubscribeOnce("t", f)` (same callback value) and one `Publish("t")`, the
once binding (heap index 1) has fired — its body executed once — yet it is
still the topic's registered binding: `removeHandler` matched the earlier
plain binding (index 0) because it removes the first binding with an equal
callback value, so the claim's "the binding itself is removed" is false. -/
theorem c1_counterexample :
    countEvents (runList New [Op.subscribe "t" (.fn ⟨1, 0⟩),
      Op.subscribeOnce "t" (.fn ⟨1, 0⟩), Op.publish "t" []]).2 1 = 1 ∧
    bindingsOf (runList New [Op.subscribe "t" (.fn ⟨1, 0⟩),
      Op.subscribeOnce "t" (.fn ⟨1, 0⟩), Op.publish "t" []]).1 "t" = [1] ∧
    (getH (runList New [Op.subscribe "t" (.fn ⟨1, 0⟩),
      Op.subscribeOnce "t" (.fn ⟨1, 0⟩), Op.publish "t" []]).1.heap 1).flagOnce = true := by
  refine ⟨?_, ?_, ?_⟩ <;> decide

/-- Claim C1 (amended): the callback body of every once binding executes
on at most one `Publish` in total over any run.  Whenever the per-binding
invocation logic shared by the synchronous and asynchronous paths processes
a once binding — in particular whenever it fires — `removeHandler` removes
from the topic's list, as current at that moment, the first binding whose
callback value equals the firing binding's (a match exists whenever the
binding is in the list, and the removed entry is the binding's own position
exactly when no earlier entry shares its callback value); the asynchronous
goroutine path performs the same removal on the topic's current list; and a
once binding that is its topic's only binding is removed when it fires,
with `HasCallback` false afterwards, on the synchronous path and on the
asynchronous path alike. -/
theorem c1_amended :
    (∀ (ops : List Op) (i : Nat),
      (getH (runList New ops).1.heap i).flagOnce = true →
      countEvents (runList New ops).2 i ≤ 1) ∧
    (∀ (heap : List eventHandler) (arr : List Nat) (len hid : Nat) (args : List Arg)
      (locked : Bool), len ≤ arr.length → (getH heap hid).flagOnce = true →
      (hid ∈ arr.take len →
        ∃ i, findHandlerIdx heap (arr.take len) (getH heap hid).callBack = some i) ∧
      (∀ i, findHandlerIdx heap (arr.take len) (getH heap hid).callBack = some i →
        i < (arr.take len).length ∧
        (getH heap (nthD (arr.take len) i)).callBack = (getH heap hid).callBack ∧
        (∀ j, j < i →
          (getH heap (nthD (arr.take len) j)).callBack ≠ (getH heap hid).callBack) ∧
        (doPublish heap arr len hid args locked).arr.take
            (doPublish heap arr len hid args locked).len =
          (arr.take len).take i ++ (arr.take len).drop (i + 1)) ∧
      (∀ k, k < (arr.take len).length → nthD (arr.take len) k = hid →
        (∀ j, j < k →
          (getH heap (nthD (arr.take len) j)).callBack ≠ (getH heap hid).callBack) →
        findHandlerIdx heap (arr.take len) (getH heap hid).callBack = some k) ∧
      (findHandlerIdx heap (arr.take len) (getH heap hid).callBack = none →
        (doPublish heap arr len hid args locked).arr.take
            (doPublish heap arr len hid args locked).len = arr.take len)) ∧
    (∀ (bus : EventBus) (hid : Nat) (t : String) (args : List Arg),
      (getH bus.heap hid).flagOnce = true →
      (∀ i, findHandlerIdx bus.heap (bindingsOf bus t) (getH bus.heap hid).callBack = some i →
        bindingsOf (runTask bus hid t args).1 t =
          (bindingsOf bus t).take i ++ (bindingsOf bus t).drop (i + 1)) ∧
      (findHandlerIdx bus.heap (bindingsOf bus t) (getH bus.heap hid).callBack = none →
        (runTask bus hid t args).1.handlers = bus.handlers)) ∧
    (∀ (bus : EventBus) (t : String) (args : List Arg) (i : Nat),
      mapLookup bus.handlers t = some [i] →
      (getH bus.heap i).flagOnce = true →
      (getH bus.heap i).async = false →
      (getH bus.heap i).called = false →
      callOutcome (getH bus.heap i).callBack args = none →
      (Publish bus t args).2.1 = [⟨i, (getH bus.heap i).callBack, args, true⟩] ∧
      mapLookup (Publish bus t args).1.handlers t = some [] ∧
      HasCallback (Publish bus t args).1 t = false) ∧
    (∀ (bus : EventBus) (t : String) (args : List Arg) (i : Nat),
      mapLookup bus.handlers t = some [i] →
      (getH bus.heap i).flagOnce = true →
      (getH bus.heap i).called = false →
      callOutcome (getH bus.heap i).callBack args = none →
      (runTask bus i t args).2 = [⟨i, (getH bus.heap i).callBack, args, false⟩] ∧
      mapLookup (runTask bus i t args).1.handlers t = some [] ∧
      HasCallback (runTask bus i t args).1 t = false) :=
  ⟨once_body_at_most_once, doPublish_once_removes_first, runTask_once_removes_first,
   publish_only_once_binding, runTask_only_once_binding⟩

/-- Witness for C1 (amended) at concrete inputs: the once binding of a
two-binding topic with a shared callback (the counterexample shape), a
sole synchronous once binding, and a sole asynchronous once binding run by
its goroutine. -/
theorem c1_amended_witness :
    countEvents (runList New [Op.subscribeOnce "t" (.fn ⟨1, 0⟩), Op.publish "t" [],
      Op.publish "t" []]).2 0 ≤ 1 ∧
    (doPublish (SubscribeOnce (Subscribe New "t" (.fn ⟨1, 0⟩)).1 "t" (.fn ⟨1, 0⟩)).1.heap
        [0, 1] 2 1 [] true).arr.take
      (doPublish (SubscribeOnce (Subscribe New "t" (.fn ⟨1, 0⟩)).1 "t" (.fn ⟨1, 0⟩)).1.heap
        [0, 1] 2 1 [] true).len =
      (([0, 1] : List Nat).take 2).take 0 ++ (([0, 1] : List Nat).take 2).drop 1 ∧
    bindingsOf (runTask (Publish (SubscribeOnceAsync New "t" (.fn ⟨5, 0⟩)).1 "t" []).1
        0 "t" []).1 "t" =
      (bindingsOf (Publish (SubscribeOnceAsync New "t" (.fn ⟨5, 0⟩)).1 "t" []).1 "t").take 0 ++
      (bindingsOf (Publish (SubscribeOnceAsync New "t" (.fn ⟨5, 0⟩)).1 "t" []).1 "t").drop 1 ∧
    HasCallback (Publish (SubscribeOnce New "t" (.fn ⟨5, 0⟩)).1 "t" []).1 "t" = false ∧
    HasCallback (runTask (Publish (SubscribeOnceAsync New "t" (.fn ⟨5, 0⟩)).1 "t" []).1
      0 "t" []).1 "t" = false :=
  ⟨c1_amended.1 [Op.subscribeOnce "t" (.fn ⟨1, 0⟩), Op.publish "t" [], Op.publish "t" []] 0
     (by decide),
   ((c1_amended.2.1 (SubscribeOnce (Subscribe New "t" (.fn ⟨1, 0⟩)).1 "t" (.fn ⟨1, 0⟩)).1.heap
       [0, 1] 2 1 [] true (by decide) (by decide)).2.1 0 (by decide)).2.2.2,
   (c1_amended.2.2.1 (Publish (SubscribeOnceAsync New "t" (.fn ⟨5, 0⟩)).1 "t" []).1
       0 "t" [] (by decide)).1 0 (by decide),
   (c1_amended.2.2.2.1 (SubscribeOnce New "t" (.fn ⟨5, 0⟩)).1 "t" [] 0 (by decide) (by decide)
     (by decide) (by decide) (by decide)).2.2,
   (c1_amended.2.2.2.2 (Publish (SubscribeOnceAsync New "t" (.fn ⟨5, 0⟩)).1 "t" []).1
     "t" [] 0 (by decide) (by decide) (by decide) (by decide)).2.2⟩

/-- Claim C2, code bug: with bindings once(f1), f2, f3 on one topic, a
single `Publish` invokes f1, then f3 twice, and never invokes f2 — the
in-place shift of `removeHandler` corrupts the snapshot the loop ranges
over — instead of invoking f1, f2, f3 once each in order; likewise the
scenario of TestSubscribeOnceAndManySubscribe (once(f), f, f, once(f))
yields 3 body executions where the repository's own test demands 4. -/
theorem c2_code_bug_eval :
    ((runList New [Op.subscribeOnce "t" (.fn ⟨1, 0⟩), Op.subscribe "t" (.fn ⟨2, 0⟩),
        Op.subscribe "t" (.fn ⟨3, 0⟩), Op.publish "t" []]).2.map (fun e => e.hid) = [0, 2, 2]) ∧
    ((runList New [Op.subscribeOnce "topic" (.fn ⟨1, 0⟩), Op.subscribe "topic" (.fn ⟨1, 0⟩),
        Op.subscribe "topic" (.fn ⟨1, 0⟩), Op.subscribeOnce "topic" (.fn ⟨1, 0⟩),
        Op.publish "topic" []]).2.length = 3) ∧
    bindingsOf (runList New [Op.subscribeOnce "topic" (.fn ⟨1, 0⟩),
      Op.subscribe "topic" (.fn ⟨1, 0⟩), Op.subscribe "topic" (.fn ⟨1, 0⟩),
      Op.subscribeOnce "topic" (.fn ⟨1, 0⟩), Op.publish "topic" []]).1 "topic" = [3] := by
  refine ⟨?_, ?_, ?_⟩ <;> decide

/-- Claim C3: `Unsubscribe` errors exactly when the topic has zero
bindings; on a non-empty topic it returns ok and removes the first binding
in subscription order whose callback value equals the argument (leaving
other topics untouched), or leaves the bus unchanged when none matches. -/
theorem c3_unsubscribe_spec (bus : EventBus) (t : String) (cb : Callback) :
    ((Unsubscribe bus t cb).2 = .unknownTopicError ↔ bindingsOf bus t = []) ∧
    (∀ l, mapLookup bus.handlers t = some l → l ≠ [] →
      (Unsubscribe bus t cb).2 = .ok ∧
      (∀ i, findHandlerIdx bus.heap l cb = some i →
        i < l.length ∧ (getH bus.heap (nthD l i)).callBack = cb ∧
        (∀ j, j < i → (getH bus.heap (nthD l j)).callBack ≠ cb) ∧
        mapLookup (Unsubscribe bus t cb).1.handlers t = some (l.take i ++ l.drop (i + 1)) ∧
        (∀ t2, t2 ≠ t →
          mapLookup (Unsubscribe bus t cb).1.handlers t2 = mapLookup bus.handlers t2)) ∧
      (findHandlerIdx bus.heap l cb = none → (Unsubscribe bus t cb).1 = bus)) := by
  constructor
  · cases hlk : mapLookup bus.handlers t with
    | none =>
        rw [Unsubscribe_eval_missing bus t cb hlk]
        simp [bindingsOf, hlk]
    | some l =>
        cases l with
        | nil =>
            rw [Unsubscribe_eval_empty bus t cb hlk]
            simp [bindingsOf, hlk]
        | cons a l =>
            cases hfi : findHandlerIdx bus.heap (a :: l) cb with
            | some i =>
                rw [Unsubscribe_eval_found bus t cb (a :: l) i hlk (by simp) hfi]
                simp [bindingsOf, hlk]
            | none =>
                rw [Unsubscribe_eval_notfound bus t cb (a :: l) hlk (by simp) hfi]
                simp [bindingsOf, hlk]
  · intro l hlk hl
    cases hfi : findHandlerIdx bus.heap l cb with
    | some i =>
        rw [Unsubscribe_eval_found bus t cb l i hlk hl hfi]
        refine ⟨rfl, ?_, ?_⟩
        · intro i2 hfi2
          obtain rfl : i = i2 := Option.some.inj hfi2
          refine ⟨findHandlerIdx_lt bus.heap l cb i hfi,
                  findHandlerIdx_match bus.heap l cb i hfi,
                  fun j hj => findHandlerIdx_first bus.heap l cb i hfi j hj, ?_, ?_⟩
          · show mapLookup (mapSet bus.handlers t
              ((removeShift l i l.length).take (l.length - 1))) t = _
            rw [mapLookup_mapSet_self,
                removeShift_take l i (findHandlerIdx_lt bus.heap l cb i hfi)]
          · intro t2 ht2
            show mapLookup (mapSet bus.handlers t
              ((removeShift l i l.length).take (l.length - 1))) t2 = _
            exact mapLookup_mapSet_ne _ _ _ _ ht2
        · intro hnone
          exact absurd hnone (by simp)
    | none =>
        rw [Unsubscribe_eval_notfound bus t cb l hlk hl hfi]
        refine ⟨rfl, ?_, fun _ => rfl⟩
        intro i2 hfi2
        exact absurd hfi2 (by simp)

/-- Witness for C3 at concrete inputs: removing the only binding succeeds
and empties the slice; a fresh bus has no topic, so unsubscribing errors. -/
theorem c3_unsubscribe_witness :
    (Unsubscribe (Subscribe New "t" (.fn ⟨1, 0⟩)).1 "t" ⟨1, 0⟩).2 = .ok ∧
    mapLookup (Unsubscribe (Subscribe New "t" (.fn ⟨1, 0⟩)).1 "t" ⟨1, 0⟩).1.handlers "t" =
      some [] ∧
    ((Unsubscribe New "t" ⟨1, 0⟩).2 = .unknownTopicError ↔ bindingsOf New "t" = []) := by
  refine ⟨((c3_unsubscribe_spec (Subscribe New "t" (.fn ⟨1, 0⟩)).1 "t" ⟨1, 0⟩).2 [0]
    (by decide) (by decide)).1, ?_, (c3_unsubscribe_spec New "t" ⟨1, 0⟩).1⟩
  have h := (((c3_unsubscribe_spec (Subscribe New "t" (.fn ⟨1, 0⟩)).1 "t" ⟨1, 0⟩).2 [0]
    (by decide) (by decide)).2.1 0 (by decide)).2.2.2.1
  simpa using h

/-- Claim C4, counterexample: subscribing nil does not return
`InvalidHandlerError`; it panics (`reflect.TypeOf(nil).Kind()` on the nil
`reflect.Type`). -/
theorem c4_counterexample_nil :
    (Subscribe New "t" .nilArg).2 ≠ SubResult.invalidHandlerError ∧
    (Subscribe New "t" .nilArg).2 = SubResult.panicked := by
  exact ⟨by decide, rfl⟩

/-- Claim C4 (amended): for every non-nil, non-function value all four
Subscribe variants return `InvalidHandlerError` and leave the bus
unchanged; for every function value they succeed, appending exactly one
binding with the variant's flags (Subscribe: once=false, async=false,
transactional=false; SubscribeOnce: once=true; SubscribeAsync: async=true,
transactional as given; SubscribeOnceAsync: once=true, async=true,
transactional=false); a nil value instead panics in all four. -/
theorem c4_amended_subscribe_validation :
    (∀ (bus : EventBus) (t : String),
      Subscribe bus t .nonFunc = (bus, .invalidHandlerError) ∧
      SubscribeOnce bus t .nonFunc = (bus, .invalidHandlerError) ∧
      (∀ tr, SubscribeAsync bus t .nonFunc tr = (bus, .invalidHandlerError)) ∧
      SubscribeOnceAsync bus t .nonFunc = (bus, .invalidHandlerError)) ∧
    (∀ (bus : EventBus) (t : String) (cb : Callback),
      Subscribe bus t (.fn cb) =
        ({ bus with
            heap := bus.heap ++ [⟨cb, false, false, false, false⟩],
            handlers := mapSet bus.handlers t (bindingsOf bus t ++ [bus.heap.length]) },
         .ok) ∧
      SubscribeOnce bus t (.fn cb) =
        ({ bus with
            heap := bus.heap ++ [⟨cb, true, false, false, false⟩],
            handlers := mapSet bus.handlers t (bindingsOf bus t ++ [bus.heap.length]) },
         .ok) ∧
      (∀ tr, SubscribeAsync bus t (.fn cb) tr =
        ({ bus with
            heap := bus.heap ++ [⟨cb, false, true, tr, false⟩],
            handlers := mapSet bus.handlers t (bindingsOf bus t ++ [bus.heap.length]) },
         .ok)) ∧
      SubscribeOnceAsync bus t (.fn cb) =
        ({ bus with
            heap := bus.heap ++ [⟨cb, true, true, false, false⟩],
            handlers := mapSet bus.handlers t (bindingsOf bus t ++ [bus.heap.length]) },
         .ok)) ∧
    (∀ (bus : EventBus) (t : String),
      (Subscribe bus t .nilArg).2 = .panicked ∧
      (SubscribeOnce bus t .nilArg).2 = .panicked ∧
      (∀ tr, (SubscribeAsync bus t .nilArg tr).2 = .panicked) ∧
      (SubscribeOnceAsync bus t .nilArg).2 = .panicked) :=
  ⟨fun bus t => ⟨rfl, rfl, fun tr => rfl, rfl⟩,
   fun bus t cb => ⟨rfl, rfl, fun tr => rfl, rfl⟩,
   fun bus t => ⟨rfl, rfl, fun tr => rfl, rfl⟩⟩

/-- Claim C5, counterexample: two async bindings, one `Publish`, then the
scheduler runs the first goroutine, whose reflect call panics (the bound
function takes one argument, the publish supplied none): the deferred
`wg.Done` runs, but the unrecovered panic terminates the program, the
second scheduled invocation can never run, the counter is stuck at one, and
`WaitAsync` can never unblock — the async error did terminate the pool. -/
theorem c5_counterexample_crash :
    (runList New [Op.subscribeAsync "t" (.fn ⟨1, 1⟩) false,
      Op.subscribeAsync "t" (.fn ⟨2, 0⟩) false, Op.publish "t" [],
      Op.runTaskAt 0]).1.crashed = true ∧
    (runList New [Op.subscribeAsync "t" (.fn ⟨1, 1⟩) false,
      Op.subscribeAsync "t" (.fn ⟨2, 0⟩) false, Op.publish "t" [],
      Op.runTaskAt 0]).1.wg = 1 ∧
    (runList New [Op.subscribeAsync "t" (.fn ⟨1, 1⟩) false,
      Op.subscribeAsync "t" (.fn ⟨2, 0⟩) false, Op.publish "t" [],
      Op.runTaskAt 0]).1.pending.length = 1 ∧
    step (runList New [Op.subscribeAsync "t" (.fn ⟨1, 1⟩) false,
      Op.subscribeAsync "t" (.fn ⟨2, 0⟩) false, Op.publish "t" [],
      Op.runTaskAt 0]).1 (Op.runTaskAt 0) =
      ((runList New [Op.subscribeAsync "t" (.fn ⟨1, 1⟩) false,
        Op.subscribeAsync "t" (.fn ⟨2, 0⟩) false, Op.publish "t" [],
        Op.runTaskAt 0]).1, []) ∧
    ¬ WaitAsyncUnblocked (runList New [Op.subscribeAsync "t" (.fn ⟨1, 1⟩) false,
      Op.subscribeAsync "t" (.fn ⟨2, 0⟩) false, Op.publish "t" [],
      Op.runTaskAt 0]).1 := by
  refine ⟨?_, ?_, ?_, ?_, ?_⟩
  · decide
  · decide
  · decide
  · decide
  · unfold WaitAsyncUnblocked
    decide

/-- Claim C5 (amended): the counter is incremented at scheduling time and
decremented when an invocation finishes, regardless of the call's outcome
(the deferred `Done` runs even while a panic unwinds), so the counter
always equals the number of scheduled-but-unfinished invocations and
`WaitAsync` unblocks exactly when none remain; however, there is no recover
or error side channel: a failing asynchronous call, after decrementing the
counter, terminates the whole program, so invocations still pending then
never finish. -/
theorem c5_amended_async_counter :
    (∀ (bus : EventBus) (op : Op), bus.wg = bus.pending.length →
      (step bus op).1.wg = (step bus op).1.pending.length) ∧
    (∀ (bus : EventBus) (n : Nat) (task : Nat × String × List Arg),
      bus.crashed = false → taskAt bus.pending n = some task →
      (step bus (.runTaskAt n)).1.wg = bus.wg - 1) ∧
    (∀ bus : EventBus, bus.wg = bus.pending.length →
      (WaitAsyncUnblocked bus ↔ bus.pending = [])) ∧
    (∀ (bus : EventBus) (n : Nat) (task : Nat × String × List Arg) (p : PanicKind),
      bus.crashed = false → taskAt bus.pending n = some task →
      (getH bus.heap task.1).flagOnce = false →
      callOutcome (getH bus.heap task.1).callBack task.2.2 = some p →
      (step bus (.runTaskAt n)).1.crashed = true) := by
  refine ⟨step_wg, step_runTask_decrements, ?_, step_runTask_crashes⟩
  intro bus h
  unfold WaitAsyncUnblocked
  rw [h]
  simp [List.length_eq_zero]

/-- Witness for C5 (amended) at concrete inputs. -/
theorem c5_amended_witness :
    (step (Publish (SubscribeAsync New "t" (.fn ⟨1, 0⟩) false).1 "t" []).1
        (Op.runTaskAt 0)).1.wg =
      (step (Publish (SubscribeAsync New "t" (.fn ⟨1, 0⟩) false).1 "t" []).1
        (Op.runTaskAt 0)).1.pending.length ∧
    (step (Publish (SubscribeAsync New "t" (.fn ⟨1, 0⟩) false).1 "t" []).1
        (Op.runTaskAt 0)).1.wg =
      (Publish (SubscribeAsync New "t" (.fn ⟨1, 0⟩) false).1 "t" []).1.wg - 1 ∧
    (WaitAsyncUnblocked (Publish (SubscribeAsync New "t" (.fn ⟨1, 0⟩) false).1 "t" []).1 ↔
      (Publish (SubscribeAsync New "t" (.fn ⟨1, 0⟩) false).1 "t" []).1.pending = []) ∧
    (step (Publish (SubscribeAsync New "t" (.fn ⟨1, 1⟩) false).1 "t" []).1
        (Op.runTaskAt 0)).1.crashed = true :=
  ⟨c5_amended_async_counter.1 (Publish (SubscribeAsync New "t" (.fn ⟨1, 0⟩) false).1 "t" []).1
     (Op.runTaskAt 0) (by decide),
   c5_amended_async_counter.2.1 (Publish (SubscribeAsync New "t" (.fn ⟨1, 0⟩) false).1 "t" []).1
     0 (0, "t", []) (by decide) (by decide),
   c5_amended_async_counter.2.2.1
     (Publish (SubscribeAsync New "t" (.fn ⟨1, 0⟩) false).1 "t" []).1 (by decide),
   c5_amended_async_counter.2.2.2
     (Publish (SubscribeAsync New "t" (.fn ⟨1, 1⟩) false).1 "t" []).1
     0 (0, "t", []) PanicKind.tooFewArgs (by decide) (by decide) (by decide) (by decide)⟩

/-- Claim C6: publishing to a topic with no bindings — key absent or slice
empty — returns immediately with no callback execution, no panic, and the
bus, including the wait-group counter and the goroutine queue, unchanged. -/
theorem c6_publish_unknown_topic_noop (bus : EventBus) (t : String) (args : List Arg)
    (h : bindingsOf bus t = []) :
    Publish bus t args = (bus, [], none) := by
  unfold bindingsOf at h
  cases hlk : mapLookup bus.handlers t with
  | none => exact Publish_eval_missing bus t args hlk
  | some l =>
      rw [hlk] at h
      simp only [Option.getD_some] at h
      subst h
      rw [Publish_eval_some bus t args [] hlk]
      rfl

/-- Witness for C6: publishing on a fresh bus, and on a topic whose slice
was emptied by `Unsubscribe` (key still present). -/
theorem c6_publish_unknown_topic_noop_witness :
    Publish New "t" [some 3] = (New, [], none) ∧
    Publish (Unsubscribe (Subscribe New "t" (.fn ⟨1, 0⟩)).1 "t" ⟨1, 0⟩).1 "t" [] =
      ((Unsubscribe (Subscribe New "t" (.fn ⟨1, 0⟩)).1 "t" ⟨1, 0⟩).1, [], none) :=
  ⟨c6_publish_unknown_topic_noop New "t" [some 3] (by decide),
   c6_publish_unknown_topic_noop (Unsubscribe (Subscribe New "t" (.fn ⟨1, 0⟩)).1 "t" ⟨1, 0⟩).1
     "t" [] (by decide)⟩

/-- Claim C7: `HasCallback` is true exactly when the topic currently has at
least one binding, and the operation leaves the bus unchanged and executes
no callback. -/
theorem c7_hasCallback_iff (bus : EventBus) (t : String) :
    (HasCallback bus t = true ↔ bindingsOf bus t ≠ []) ∧
    step bus (.hasCallback t) = (bus, []) := by
  constructor
  · cases hlk : mapLookup bus.handlers t with
    | none => simp [HasCallback, bindingsOf, hlk]
    | some l =>
        simp [HasCallback, bindingsOf, hlk, List.length_pos]
  · simp [step]

/-- Claim C8, code bug, evaluated at the failing input: with one
synchronous binding, the callback body runs while the dispatcher's
structural lock is held (the event's `locked` field), because `Publish`
only releases `bus.lock` through its deferred unlock after the loop — its
own comment says it unlocks before the call.  A handler that calls any bus
method therefore deadlocks. -/
theorem c8_lock_held_eval :
    (Publish (Subscribe New "t" (.fn ⟨7, 0⟩)).1 "t" []).2.1 =
      [⟨0, ⟨7, 0⟩, [], true⟩] := by
  decide

/-- Claim C9: subscribing a nil callback panics in all four variants
(`reflect.TypeOf(nil)` is the nil `reflect.Type`; calling `Kind()` on a nil
interface panics) instead of returning `InvalidHandlerError`, and the bus
is unchanged. -/
theorem c9_nil_subscribe_panics (bus : EventBus) (t : String) (tr : Bool) :
    Subscribe bus t .nilArg = (bus, .panicked) ∧
    SubscribeOnce bus t .nilArg = (bus, .panicked) ∧
    SubscribeAsync bus t .nilArg tr = (bus, .panicked) ∧
    SubscribeOnceAsync bus t .nilArg = (bus, .panicked) ∧
    SubResult.panicked ≠ SubResult.invalidHandlerError :=
  ⟨rfl, rfl, rfl, rfl, by decide⟩

/-- Claim C10: when the topic's first synchronous binding (possibly after
asynchronous ones, which are only scheduled) is fresh and its arity matches
the argument count, publishing with a nil among the arguments panics at
invocation time with reflect's zero-Value panic — `reflect.ValueOf(nil)`
produced the zero `Value` and `Call` rejects it — rather than passing nil
to the callback (no body executes inline) or reporting an error value. -/
theorem c10_nil_arg_panics (bus : EventBus) (t : String) (args : List Arg)
    (pre : List Nat) (i0 : Nat) (tail : List Nat)
    (hlk : mapLookup bus.handlers t = some (pre ++ i0 :: tail))
    (hpre : ∀ j ∈ pre, (getH bus.heap j).async = true)
    (hasync : (getH bus.heap i0).async = false)
    (hcalled : (getH bus.heap i0).called = false)
    (har : (getH bus.heap i0).callBack.arity = args.length)
    (hn : args.contains none = true) :
    (Publish bus t args).2.2 = some PanicKind.zeroValueArg ∧
    (Publish bus t args).2.1 = [] := by
  rw [Publish_eval_some bus t args (pre ++ i0 :: tail) hlk]
  have h := publishLoop_firstSync_panics t args pre (pre ++ i0 :: tail).length 0
    ⟨bus.heap, pre ++ i0 :: tail, (pre ++ i0 :: tail).length, bus.wg, bus.pending⟩
    i0 tail (by simp) hpre hasync hcalled har hn (by simp)
  exact ⟨h.1, h.2⟩

/-- Witness for C10 at concrete inputs: one async binding scheduled first,
then the synchronous arity-1 binding panics on a nil argument. -/
theorem c10_nil_arg_panics_witness :
    (Publish (Subscribe (SubscribeAsync New "t" (.fn ⟨9, 1⟩) false).1 "t"
        (.fn ⟨1, 1⟩)).1 "t" [none]).2.2 = some PanicKind.zeroValueArg ∧
    (Publish (Subscribe (SubscribeAsync New "t" (.fn ⟨9, 1⟩) false).1 "t"
        (.fn ⟨1, 1⟩)).1 "t" [none]).2.1 = [] :=
  c10_nil_arg_panics (Subscribe (SubscribeAsync New "t" (.fn ⟨9, 1⟩) false).1 "t"
      (.fn ⟨1, 1⟩)).1 "t" [none] [0] 1 [] (by decide)
    (by decide) (by decide) (by decide) (by decide) (by decide)
